import Mathlib

set_option autoImplicit false

/-!
Shallow embedding of the `@ambak/nest-logger` trace/request-context,
sanitizer and formatter code, with theorems settling the frozen claims.

JavaScript strings are modelled as `List Char`; `undefined` headers are
modelled as the empty list, which is faithful because every consumer of a
header in the sources only tests JS truthiness (`!header`), and `''` and
`undefined` are both falsy.  Calls to `crypto.randomBytes(...).toString('hex')`
are modelled by an explicit `Entropy` record passed to each function, and
`Date.now()` by an explicit `now : Nat` (epoch seconds).
-/

namespace JsStr

/-- The double-quote character. -/
def quoteD : Char := Char.ofNat 34

/-- The single-quote character. -/
def quoteS : Char := Char.ofNat 39

/-- Lower-case hex digit, the character class `[0-9a-f]`. -/
def isHexLower (c : Char) : Bool := c.isDigit || ('a' ≤ c && c ≤ 'f')

/-- Any-case hex digit, the character class `[0-9a-f]` with the `/i` flag. -/
def isHexAny (c : Char) : Bool := isHexLower c || ('A' ≤ c && c ≤ 'F')

/-- JS `String.prototype.padStart(n, c)`. -/
def padStart (n : Nat) (c : Char) (l : List Char) : List Char :=
  List.replicate (n - l.length) c ++ l

/-- JS `String.prototype.trim()`. -/
def jsTrim (l : List Char) : List Char :=
  ((l.dropWhile Char.isWhitespace).reverse.dropWhile Char.isWhitespace).reverse

/-- JS `String.prototype.split(sep)` for a one-character separator. -/
def splitOnChar (sep : Char) : List Char → List (List Char)
  | [] => [[]]
  | c :: cs =>
    if c = sep then [] :: splitOnChar sep cs
    else
      match splitOnChar sep cs with
      | [] => [[c]]
      | h :: t => (c :: h) :: t

/-- JS `String.prototype.split(sep)` for a separator of length ≥ 1,
given as head character and tail. -/
def splitOnSeq (s0 : Char) (srest : List Char) (l : List Char) :
    List (List Char) :=
  match l with
  | [] => [[]]
  | c :: cs =>
    if (s0 :: srest).isPrefixOf (c :: cs) then
      [] :: splitOnSeq s0 srest (cs.drop srest.length)
    else
      match splitOnSeq s0 srest cs with
      | [] => [[c]]
      | h :: t => (c :: h) :: t
termination_by l.length
decreasing_by
  · simp only [List.length_cons]
    have := List.length_drop srest.length cs
    omega
  · simp [List.length_cons]

/-- One step of the regex `^["']|["']$`: strip a single leading quote. -/
def stripLeadQuote (l : List Char) : List Char :=
  match l with
  | [] => []
  | c :: cs => if c = quoteD || c = quoteS then cs else c :: cs

/-- JS `header.replace(/^["']|["']$/g, '')`: strip one leading and one
trailing quote character. -/
def stripQuotes (l : List Char) : List Char :=
  ((stripLeadQuote l).reverse |> stripLeadQuote).reverse

end JsStr

open JsStr

/-- The fixed outputs of the `crypto.randomBytes(..).toString('hex')` calls a
single source function performs, passed in explicitly. -/
structure Entropy where
  /-- `randomBytes(16).toString('hex')` — 32 hex chars for a W3C trace id. -/
  w3c32 : List Char
  /-- `randomBytes(12).toString('hex').toLowerCase()` — 24 hex chars for an
  AWS X-Ray trace id. -/
  aws24 : List Char
  /-- `randomBytes(8).toString('hex')` — 16 hex chars for a span id. -/
  span16 : List Char
  /-- `randomBytes(16).toString('hex')` — 32 hex chars used for request ids. -/
  req32 : List Char

/-- Model of `TraceContext` (src/context/trace-context.ts): the four string
fields and the `traceState` map (insertion-ordered association list). -/
structure TraceContext where
  version : List Char
  traceId : List Char
  spanId : List Char
  traceFlags : List Char
  traceState : List (List Char × List Char)
deriving DecidableEq, Repr

namespace TraceContext

/-- The field defaults installed by the class property initializers. -/
def init : TraceContext :=
  { version := ['0', '0'], traceId := [], spanId := [],
    traceFlags := ['0', '1'], traceState := [] }

/-- `TraceContext.generateNew(awsFormat)`.  `now` is `Date.now()/1000`
in seconds; `Nat.toDigits 16` renders lowercase hex like
`epochSeconds.toString(16)`. -/
def generateNew (awsFormat : Bool) (now : Nat) (e : Entropy) : TraceContext :=
  if awsFormat then
    { init with
      traceId := '1' :: '-' :: (padStart 8 '0' (Nat.toDigits 16 now) ++ '-' :: e.aws24),
      spanId := e.span16 }
  else
    { init with traceId := e.w3c32, spanId := e.span16 }

/-- The regex test `/^[0-9a-f]{n}$/.test(s)`. -/
def isHexStr (n : Nat) (l : List Char) : Bool :=
  l.length = n && l.all isHexLower

/-- `TraceContext.parseTraceParent(header)`.  An absent header is `[]`. -/
def parseTraceParent (header : List Char) (now : Nat) (e : Entropy) :
    TraceContext :=
  if header = [] then generateNew false now e
  else
    let parts := splitOnChar '-' header
    if parts.length ≠ 4 then generateNew false now e
    else
      let version := parts.headD []
      let traceId := (parts.drop 1).headD []
      let spanId := (parts.drop 2).headD []
      let flags := (parts.drop 3).headD []
      if !(isHexStr 2 version) || !(isHexStr 32 traceId) ||
         !(isHexStr 16 spanId) || !(isHexStr 2 flags) then
        generateNew false now e
      else
        { init with
          version := version, traceId := traceId,
          spanId := e.span16, traceFlags := flags }

/-- `TraceContext.parseCloudTrace(header)`. -/
def parseCloudTrace (header : List Char) (now : Nat) (e : Entropy) :
    TraceContext :=
  if header = [] then generateNew false now e
  else
    -- const [traceSpan, options] = header.split(';o=');
    let pieces := splitOnSeq ';' ['o', '='] header
    let traceSpan := pieces.headD []
    let options := pieces[1]?
    -- const [traceId] = traceSpan.split('/');
    let traceId := (splitOnChar '/' traceSpan).headD []
    if traceId = [] then generateNew false now e
    else
      { init with
        traceId := padStart 32 '0' traceId,
        spanId := e.span16,
        traceFlags := if options = some ['0'] then ['0', '0'] else ['0', '1'] }

/-- The accumulation performed by the `for (const part of parts)` loop of
`parseXAmznTraceId`: state is `(rootPart, parentPart, sampled)`. -/
def amznScan (st : List Char × List Char × List Char) (part : List Char) :
    List Char × List Char × List Char :=
  let t := jsTrim part
  if ("Root=".toList).isPrefixOf t then (t.drop 5, st.2.1, st.2.2)
  else if ("Parent=".toList).isPrefixOf t then (st.1, t.drop 7, st.2.2)
  else if ("Sampled=".toList).isPrefixOf t then (st.1, st.2.1, t.drop 8)
  else st

/-- The normalization `.replace(/[^0-9a-f]/gi, '').slice(0, 16)
.padStart(16, '0').toLowerCase()` applied to a `Parent=` value. -/
def normalizeAmznSpan (l : List Char) : List Char :=
  (padStart 16 '0' ((l.filter isHexAny).take 16)).map Char.toLower

/-- `TraceContext.parseXAmznTraceId(header)`. -/
def parseXAmznTraceId (header : List Char) (now : Nat) (e : Entropy) :
    TraceContext :=
  if header = [] then generateNew true now e
  else
    let header' := stripQuotes header
    let parts := splitOnChar ';' header'
    let st := parts.foldl amznScan ([], [], ['1'])
    let rootPart := st.1
    let parentPart := st.2.1
    let sampled := st.2.2
    if rootPart = [] then generateNew true now e
    else
      -- both branches of `rootParts.length >= 3` store `rootPart` unchanged
      { init with
        traceId := rootPart,
        spanId :=
          if parentPart ≠ [] then normalizeAmznSpan parentPart else e.span16,
        traceFlags := if sampled = ['0'] then ['0', '0'] else ['0', '1'] }

/-- JS `Map.prototype.set`: update an existing key in place, else append. -/
def mapSet (m : List (List Char × List Char)) (k v : List Char) :
    List (List Char × List Char) :=
  if m.any (fun p => p.1 = k) then
    m.map (fun p => if p.1 = k then (k, v) else p)
  else m ++ [(k, v)]

/-- `parseTraceState(header)`: mutates `traceState`; returns the updated
context. -/
def parseTraceState (ctx : TraceContext) (header : List Char) : TraceContext :=
  if header = [] then ctx
  else
    let pairs := splitOnChar ',' header
    { ctx with
      traceState := pairs.foldl
        (fun st pair =>
          let kv := splitOnChar '=' (jsTrim pair)
          let k := kv.headD []
          let v := (kv.drop 1).headD []
          if k ≠ [] && v ≠ [] then mapSet st k v else st)
        ctx.traceState }

/-- `toTraceParent()`. -/
def toTraceParent (ctx : TraceContext) : List Char :=
  ctx.version ++ '-' :: ctx.traceId ++ '-' :: ctx.spanId ++ '-' :: ctx.traceFlags

/-- `toTraceState()`. -/
def toTraceState (ctx : TraceContext) : List Char :=
  match ctx.traceState.map (fun p => p.1 ++ '=' :: p.2) with
  | [] => []
  | s :: rest => rest.foldl (fun acc t => acc ++ ',' :: t) s

/-- `toCloudTrace()`. -/
def toCloudTrace (ctx : TraceContext) : List Char :=
  ctx.traceId ++ '/' :: ctx.spanId ++
    (';' :: 'o' :: '=' :: [if ctx.traceFlags = ['0', '1'] then '1' else '0'])

/-- The regex test `/^1-[0-9a-f]{8}-[0-9a-f]{24}$/i.test(s)`. -/
def isAwsTraceId (l : List Char) : Bool :=
  match l with
  | '1' :: '-' :: rest =>
    let a := rest.take 8
    let b := rest.drop 8
    match b with
    | '-' :: c =>
      a.length = 8 && a.all isHexAny && c.length = 24 && c.all isHexAny
    | _ => false
  | _ => false

/-- `toXAmznTraceId()`. -/
def toXAmznTraceId (ctx : TraceContext) (now : Nat) : List Char :=
  let spanIdHex := normalizeAmznSpan ctx.spanId
  let sampled : List Char := if ctx.traceFlags = ['0', '1'] then ['1'] else ['0']
  if isAwsTraceId ctx.traceId then
    "Root=".toList ++ ctx.traceId ++ ";Parent=".toList ++ spanIdHex ++
      ";Sampled=".toList ++ sampled
  else
    let hexTimestamp := (padStart 8 '0' (Nat.toDigits 16 now)).map Char.toLower
    let traceIdHex :=
      (padStart 24 '0' ((ctx.traceId.filter isHexAny).take 24)).map Char.toLower
    let awsTraceId := '1' :: '-' :: hexTimestamp ++ '-' :: traceIdHex
    "Root=".toList ++ awsTraceId ++ ";Parent=".toList ++ spanIdHex ++
      ";Sampled=".toList ++ sampled

/-- `createChildSpan()`. -/
def createChildSpan (ctx : TraceContext) (e : Entropy) : TraceContext :=
  { version := ctx.version, traceId := ctx.traceId, spanId := e.span16,
    traceFlags := ctx.traceFlags, traceState := ctx.traceState }

end TraceContext

/-! ## RequestContext (src/context/request-context.ts, vendor-aware revision)

The revision of `RequestContext` cited by the claims carries a
`logType: 'gcp' | 'aws'` field.  The per-instance `Map` allocated by
`new Map()` in the constructor is modelled by a reference (`metaRef`) into an
explicit heap (`MetaStore`), so that aliasing between the metadata maps of
different contexts is expressible; the value type of `Map<string, any>` is a
type parameter `α`. -/

/-- `logType: 'gcp' | 'aws'`. -/
inductive LogType | gcp | aws
deriving DecidableEq, Repr

/-- Model of `RequestContext`'s fields.  `_startTime` is omitted: no claim
touches `getElapsedMs`. -/
structure RequestContext where
  requestId : List Char
  traceContext : Option TraceContext
  logType : LogType
  metaRef : Nat

/-- The heap of metadata `Map`s: a fresh-reference counter and a table from
references to insertion-ordered association lists. -/
structure MetaStore (α : Type) where
  nextRef : Nat
  tbl : List (Nat × List (List Char × α))

namespace MetaStore

/-- Allocate a fresh empty `Map` (the `new Map()` in the constructor),
returning its reference and the grown heap. -/
def alloc {α : Type} (s : MetaStore α) : Nat × MetaStore α :=
  (s.nextRef, { nextRef := s.nextRef + 1, tbl := (s.nextRef, []) :: s.tbl })

/-- Read the map stored at a reference. -/
def readMap {α : Type} (s : MetaStore α) (r : Nat) : List (List Char × α) :=
  match s.tbl.find? (fun p => p.1 = r) with
  | some p => p.2
  | none => []

/-- `Map.prototype.set` within the heap cell at reference `r`. -/
def writeKey {α : Type} (s : MetaStore α) (r : Nat) (k : List Char) (v : α) :
    MetaStore α :=
  { s with
    tbl := s.tbl.map (fun p =>
      if p.1 = r then
        (p.1,
          if p.2.any (fun q => q.1 = k) then
            p.2.map (fun q => if q.1 = k then (k, v) else q)
          else p.2 ++ [(k, v)])
      else p) }

/-- Every reference recorded in the table is strictly below `nextRef`; holds
for every store built by `alloc` from the empty store. -/
def WF {α : Type} (s : MetaStore α) : Prop :=
  ∀ p ∈ s.tbl, p.1 < s.nextRef

end MetaStore

namespace RequestContext

/-- The `constructor()`: default field values plus a freshly allocated
metadata map. -/
def mkNew {α : Type} (s : MetaStore α) : RequestContext × MetaStore α :=
  let (r, s') := s.alloc
  ({ requestId := [], traceContext := none, logType := LogType.gcp,
     metaRef := r }, s')

/-- The incoming request's headers; an absent header reads as `[]`
(JS `undefined` is falsy exactly as `''` is for every use below). -/
def Headers := List (List Char × List Char)

/-- Header lookup, first match. -/
def getHeader (h : Headers) (k : List Char) : List Char :=
  match List.find? (fun p => p.1 = k) h with
  | some p => p.2
  | none => []

/-- `RequestContext.createTraceContext(req, logType)` (private static). -/
def createTraceContext (h : Headers) (logType : LogType) (now : Nat)
    (e : Entropy) : TraceContext :=
  let amzn := getHeader h "x-amzn-trace-id".toList
  let cloud := getHeader h "x-cloud-trace-context".toList
  let tp := getHeader h "traceparent".toList
  let tc :=
    if logType = LogType.aws ∧ amzn ≠ [] then
      TraceContext.parseXAmznTraceId amzn now e
    else if cloud ≠ [] then
      TraceContext.parseCloudTrace cloud now e
    else
      TraceContext.parseTraceParent tp now e
  tc.parseTraceState (getHeader h "tracestate".toList)

/-- `RequestContext.create(req, logType)`. -/
def create {α : Type} (h : Headers) (logType : LogType) (now : Nat)
    (e : Entropy) (s : MetaStore α) : RequestContext × MetaStore α :=
  let (ctx0, s') := mkNew s
  ({ ctx0 with
     requestId :=
       -- req.headers['x-request-id'] || randomBytes(16).toString('hex').slice(0, 8)
       (if getHeader h "x-request-id".toList ≠ [] then
          getHeader h "x-request-id".toList
        else e.req32.take 8),
     traceContext := some (createTraceContext h logType now e),
     logType := logType }, s')

/-- JS object property assignment `headers[k] = v`: update in place if the
key exists, else append. -/
def setKey (m : List (List Char × List Char)) (k v : List Char) :
    List (List Char × List Char) :=
  if m.any (fun p => p.1 = k) then
    m.map (fun p => if p.1 = k then (k, v) else p)
  else m ++ [(k, v)]

/-- `addTraceHeaders(headers)`. -/
def addTraceHeaders (ctx : RequestContext)
    (headers : List (List Char × List Char)) (now : Nat) :
    List (List Char × List Char) :=
  let h1 :=
    match ctx.traceContext with
    | none => headers
    | some tc =>
      let a := setKey headers "traceparent".toList tc.toTraceParent
      let b :=
        if tc.toTraceState ≠ [] then
          setKey a "tracestate".toList tc.toTraceState
        else a
      if ctx.logType = LogType.aws then
        setKey b "x-amzn-trace-id".toList (tc.toXAmznTraceId now)
      else
        setKey b "x-cloud-trace-context".toList tc.toCloudTrace
  setKey h1 "x-request-id".toList ctx.requestId

/-- `createChildContext()`. -/
def createChildContext {α : Type} (ctx : RequestContext) (now : Nat)
    (e : Entropy) (s : MetaStore α) : RequestContext × MetaStore α :=
  let (child0, s') := mkNew s
  ({ child0 with
     requestId := ctx.requestId,
     traceContext := some
       (match ctx.traceContext with
        | some tc => tc.createChildSpan e
        | none => TraceContext.generateNew false now e),
     logType := ctx.logType }, s')

/-- `setMetadata(key, value)`: mutates this context's `Map` in the heap. -/
def setMetadata {α : Type} (ctx : RequestContext) (s : MetaStore α)
    (k : List Char) (v : α) : MetaStore α :=
  s.writeKey ctx.metaRef k v

/-- `getMetadata(key)`. -/
def getMetadata {α : Type} (ctx : RequestContext) (s : MetaStore α)
    (k : List Char) : Option α :=
  match (s.readMap ctx.metaRef).find? (fun p => p.1 = k) with
  | some p => some p.2
  | none => none

end RequestContext

/-! ## Basic facts about the string helpers and the parsers -/

namespace JsStr

theorem padStart_length (n : Nat) (c : Char) (l : List Char) :
    (padStart n c l).length = max n l.length := by
  simp [padStart]; omega

theorem padStart_ne_nil {n : Nat} (c : Char) (l : List Char) (h : 0 < n) :
    padStart n c l ≠ [] := by
  intro hnil
  have := padStart_length n c l
  rw [hnil] at this
  simp at this
  omega

end JsStr

namespace TraceContext

theorem normalizeAmznSpan_ne_nil (l : List Char) : normalizeAmznSpan l ≠ [] := by
  simp only [normalizeAmznSpan, ne_eq, List.map_eq_nil_iff]
  exact padStart_ne_nil '0' _ (by omega)

theorem generateNew_spanId (a : Bool) (now : Nat) (e : Entropy) :
    (generateNew a now e).spanId = e.span16 := by
  cases a <;> simp [generateNew, init]

theorem generateNew_traceId_ne (a : Bool) (now : Nat) (e : Entropy)
    (hw : e.w3c32 ≠ []) : (generateNew a now e).traceId ≠ [] := by
  cases a <;> simp [generateNew, init, hw]

theorem isHexStr_length {n : Nat} {l : List Char} (h : isHexStr n l = true) :
    l.length = n := by
  simp [isHexStr] at h
  exact h.1

/-- In every branch, `parseTraceParent` sets `spanId` from `randomBytes`. -/
theorem parseTraceParent_spanId (h : List Char) (now : Nat) (e : Entropy) :
    (parseTraceParent h now e).spanId = e.span16 := by
  simp only [parseTraceParent]
  split
  · exact generateNew_spanId _ _ _
  · split
    · exact generateNew_spanId _ _ _
    · split
      · exact generateNew_spanId _ _ _
      · rfl

/-- In every branch, `parseCloudTrace` sets `spanId` from `randomBytes`. -/
theorem parseCloudTrace_spanId (h : List Char) (now : Nat) (e : Entropy) :
    (parseCloudTrace h now e).spanId = e.span16 := by
  simp only [parseCloudTrace]
  split
  · exact generateNew_spanId _ _ _
  · split
    · exact generateNew_spanId _ _ _
    · rfl

theorem parseTraceParent_traceId_ne (h : List Char) (now : Nat) (e : Entropy)
    (hw : e.w3c32 ≠ []) : (parseTraceParent h now e).traceId ≠ [] := by
  simp only [parseTraceParent]
  split
  · exact generateNew_traceId_ne _ _ _ hw
  · split
    · exact generateNew_traceId_ne _ _ _ hw
    · split
      · exact generateNew_traceId_ne _ _ _ hw
      · rename_i hcond
        simp only [Bool.not_eq_true, Bool.or_eq_false_iff, Bool.not_eq_false']
          at hcond
        have h32 := isHexStr_length hcond.1.1.2
        intro hnil
        dsimp only at hnil
        rw [hnil] at h32
        simp at h32

theorem parseCloudTrace_traceId_ne (h : List Char) (now : Nat) (e : Entropy)
    (hw : e.w3c32 ≠ []) : (parseCloudTrace h now e).traceId ≠ [] := by
  simp only [parseCloudTrace]
  split
  · exact generateNew_traceId_ne _ _ _ hw
  · split
    · exact generateNew_traceId_ne _ _ _ hw
    · exact padStart_ne_nil '0' _ (by omega)

theorem parseXAmznTraceId_traceId_ne (h : List Char) (now : Nat)
    (e : Entropy) : (parseXAmznTraceId h now e).traceId ≠ [] := by
  simp only [parseXAmznTraceId]
  split
  · simp [generateNew, init]
  · split
    · simp [generateNew, init]
    · rename_i hroot
      simpa using hroot

theorem parseXAmznTraceId_spanId_ne (h : List Char) (now : Nat) (e : Entropy)
    (hs : e.span16 ≠ []) : (parseXAmznTraceId h now e).spanId ≠ [] := by
  simp only [parseXAmznTraceId]
  split
  · rw [generateNew_spanId]; exact hs
  · split
    · rw [generateNew_spanId]; exact hs
    · simp only
      split
      · exact normalizeAmznSpan_ne_nil _
      · exact hs

end TraceContext

/-! ## Split lemmas for round-tripping `traceparent` -/

namespace JsStr

theorem splitOnChar_of_not_mem {sep : Char} {l : List Char} (h : sep ∉ l) :
    splitOnChar sep l = [l] := by
  induction l with
  | nil => rfl
  | cons c cs ih =>
    have hc : c ≠ sep := fun hcs => h (hcs ▸ List.mem_cons_self c cs)
    have hcs : sep ∉ cs := fun hm => h (List.mem_cons_of_mem c hm)
    rw [splitOnChar, if_neg hc, ih hcs]

theorem splitOnChar_append {sep : Char} {a : List Char} (rest : List Char)
    (h : sep ∉ a) : splitOnChar sep (a ++ sep :: rest) = a :: splitOnChar sep rest := by
  induction a with
  | nil => simp [splitOnChar]
  | cons c cs ih =>
    have hc : c ≠ sep := fun hcs => h (hcs ▸ List.mem_cons_self c cs)
    have hcs : sep ∉ cs := fun hm => h (List.mem_cons_of_mem c hm)
    rw [List.cons_append, splitOnChar, if_neg hc, ih hcs]

end JsStr

namespace TraceContext

theorem hex_no_dash {l : List Char} (h : l.all isHexLower = true) : '-' ∉ l := by
  intro hm
  have := List.all_eq_true.mp h _ hm
  exact absurd this (by decide)

end TraceContext

/-! ## Concrete inputs used by witnesses and counterexamples -/

/-- A concrete well-formed `Entropy`, standing for one batch of
`randomBytes` outputs. -/
def entropyA : Entropy :=
  { w3c32 := "0af7651916cd43dd8448eb211c80319c".toList
    aws24 := "aaaaaaaaaaaaaaaaaaaaaaaa".toList
    span16 := "00f067aa0ba902b7".toList
    req32 := "53ce929d0e0e4736a5bd85cf2c8ba821".toList }

/-- The documented example `x-amzn-trace-id` header, which carries the span
id `745315306bfc9ca3` in its `Parent=` segment. -/
def amznHeaderA : List Char :=
  "Root=1-69313ce7-190b8f6099d578eaf1f561bc;Parent=745315306bfc9ca3;Sampled=1".toList

/-! ## C1 -/

/-- C1: for every input header (absent, empty, or arbitrarily malformed),
each of the three trace-header parse functions returns a trace identity with
a non-empty trace id and a non-empty span id; the functions are total (no
parse path throws or returns null), with malformed input degrading to the
`generateNew` fallback whose ids come from the supplied entropy. -/
theorem claim_C1 (header : List Char) (now : Nat) (e : Entropy)
    (hw : e.w3c32 ≠ []) (hs : e.span16 ≠ []) :
    ((TraceContext.parseTraceParent header now e).traceId ≠ [] ∧
     (TraceContext.parseTraceParent header now e).spanId ≠ []) ∧
    ((TraceContext.parseCloudTrace header now e).traceId ≠ [] ∧
     (TraceContext.parseCloudTrace header now e).spanId ≠ []) ∧
    ((TraceContext.parseXAmznTraceId header now e).traceId ≠ [] ∧
     (TraceContext.parseXAmznTraceId header now e).spanId ≠ []) := by
  refine ⟨⟨TraceContext.parseTraceParent_traceId_ne header now e hw, ?_⟩,
    ⟨TraceContext.parseCloudTrace_traceId_ne header now e hw, ?_⟩,
    TraceContext.parseXAmznTraceId_traceId_ne header now e,
    TraceContext.parseXAmznTraceId_spanId_ne header now e hs⟩
  · rw [TraceContext.parseTraceParent_spanId]; exact hs
  · rw [TraceContext.parseCloudTrace_spanId]; exact hs

/-- Witness for C1 at a malformed header (wrong segment count, non-hex). -/
theorem claim_C1_witness :
    (entropyA.w3c32 ≠ [] ∧ entropyA.span16 ≠ []) ∧
    (((TraceContext.parseTraceParent "zz-bad".toList 1700000000 entropyA).traceId ≠ [] ∧
      (TraceContext.parseTraceParent "zz-bad".toList 1700000000 entropyA).spanId ≠ []) ∧
     ((TraceContext.parseCloudTrace "zz-bad".toList 1700000000 entropyA).traceId ≠ [] ∧
      (TraceContext.parseCloudTrace "zz-bad".toList 1700000000 entropyA).spanId ≠ []) ∧
     ((TraceContext.parseXAmznTraceId "zz-bad".toList 1700000000 entropyA).traceId ≠ [] ∧
      (TraceContext.parseXAmznTraceId "zz-bad".toList 1700000000 entropyA).spanId ≠ [])) :=
  ⟨⟨by decide, by decide⟩,
   claim_C1 "zz-bad".toList 1700000000 entropyA (by decide) (by decide)⟩

/-! ## C2 -/

/-- C2 counterexample: `parseXAmznTraceId` adopts the span id carried in the
header's `Parent=` segment instead of generating a fresh one — refuting the
claim that a derived span id never equals a span id from the header. -/
theorem claim_C2_counterexample :
    (TraceContext.parseXAmznTraceId amznHeaderA 1700000000 entropyA).spanId
      = "745315306bfc9ca3".toList ∧
    "745315306bfc9ca3".toList ≠ entropyA.span16 := by
  constructor
  · decide
  · decide

/-- C2 amended: `parseTraceParent` and `parseCloudTrace` always set the span
id from fresh entropy; `parseXAmznTraceId` sets it from fresh entropy only
when the header carries no usable `Parent=` segment, and otherwise adopts the
header's parent span id (hex-filtered, truncated/padded to 16, lowercased). -/
theorem claim_C2_amended (header : List Char) (now : Nat) (e : Entropy) :
    (TraceContext.parseTraceParent header now e).spanId = e.span16 ∧
    (TraceContext.parseCloudTrace header now e).spanId = e.span16 ∧
    (let st := (splitOnChar ';' (stripQuotes header)).foldl
        TraceContext.amznScan ([], [], ['1'])
     if header ≠ [] ∧ st.1 ≠ [] ∧ st.2.1 ≠ [] then
       (TraceContext.parseXAmznTraceId header now e).spanId =
         TraceContext.normalizeAmznSpan st.2.1
     else
       (TraceContext.parseXAmznTraceId header now e).spanId = e.span16) := by
  refine ⟨TraceContext.parseTraceParent_spanId header now e,
    TraceContext.parseCloudTrace_spanId header now e, ?_⟩
  simp only
  split
  · rename_i hcond
    obtain ⟨hh, hroot, hpar⟩ := hcond
    simp only [TraceContext.parseXAmznTraceId, if_neg hh, if_neg hroot]
    simp [hpar]
  · rename_i hcond
    by_cases hh : header = []
    · simp [TraceContext.parseXAmznTraceId, hh, TraceContext.generateNew_spanId]
    · by_cases hroot :
        ((splitOnChar ';' (stripQuotes header)).foldl
          TraceContext.amznScan ([], [], ['1'])).1 = []
      · simp only [TraceContext.parseXAmznTraceId, if_neg hh, if_pos hroot]
        exact TraceContext.generateNew_spanId _ _ _
      · have hpar : ((splitOnChar ';' (stripQuotes header)).foldl
            TraceContext.amznScan ([], [], ['1'])).2.1 = [] := by
          by_contra hne
          exact hcond ⟨hh, hroot, hne⟩
        simp only [TraceContext.parseXAmznTraceId, if_neg hh, if_neg hroot]
        simp [hpar]

/-! ## C4 -/

namespace TraceContext

theorem hexStr_no_dash {n : Nat} {l : List Char} (h : isHexStr n l = true) :
    '-' ∉ l := by
  have hall : l.all isHexLower = true := by
    simp only [isHexStr, Bool.and_eq_true] at h
    exact h.2
  intro hm
  have := List.all_eq_true.mp hall _ hm
  exact absurd this (by decide)

end TraceContext

/-- C4: parsing a valid W3C `traceparent` header and re-serializing preserves
the version, trace-id and flags segments exactly, while the span-id segment
is the freshly generated 16-hex string (so trace-id equality holds but full
string equality need not). -/
theorem claim_C4 (v t s f : List Char) (now : Nat) (e : Entropy)
    (hv : TraceContext.isHexStr 2 v = true)
    (ht : TraceContext.isHexStr 32 t = true)
    (hs : TraceContext.isHexStr 16 s = true)
    (hf : TraceContext.isHexStr 2 f = true)
    (hspan : TraceContext.isHexStr 16 e.span16 = true) :
    (TraceContext.parseTraceParent (v ++ '-' :: (t ++ '-' :: (s ++ '-' :: f)))
        now e).toTraceParent = v ++ '-' :: (t ++ '-' :: (e.span16 ++ '-' :: f)) ∧
    (TraceContext.parseTraceParent (v ++ '-' :: (t ++ '-' :: (s ++ '-' :: f)))
        now e).traceId = t ∧
    (TraceContext.parseTraceParent (v ++ '-' :: (t ++ '-' :: (s ++ '-' :: f)))
        now e).version = v ∧
    (TraceContext.parseTraceParent (v ++ '-' :: (t ++ '-' :: (s ++ '-' :: f)))
        now e).traceFlags = f ∧
    TraceContext.isHexStr 16
      (TraceContext.parseTraceParent (v ++ '-' :: (t ++ '-' :: (s ++ '-' :: f)))
        now e).spanId = true := by
  have hsplit : splitOnChar '-' (v ++ '-' :: (t ++ '-' :: (s ++ '-' :: f)))
      = [v, t, s, f] := by
    rw [splitOnChar_append _ (TraceContext.hexStr_no_dash hv),
      splitOnChar_append _ (TraceContext.hexStr_no_dash ht),
      splitOnChar_append _ (TraceContext.hexStr_no_dash hs),
      splitOnChar_of_not_mem (TraceContext.hexStr_no_dash hf)]
  have hne : v ++ '-' :: (t ++ '-' :: (s ++ '-' :: f)) ≠ [] := by
    have := TraceContext.isHexStr_length hv
    cases v with
    | nil => simp at this
    | cons a as => simp
  rw [TraceContext.parseTraceParent, if_neg hne]
  simp only [hsplit]
  norm_num
  rw [if_neg (by simp [hv, ht, hs, hf])]
  simp [TraceContext.toTraceParent, TraceContext.init, hspan]

/-- Witness for C4 at a concrete valid `traceparent`. -/
theorem claim_C4_witness :
    (TraceContext.isHexStr 2 "00".toList = true ∧
     TraceContext.isHexStr 32 "4bf92f3577b34da6a3ce929d0e0e4736".toList = true ∧
     TraceContext.isHexStr 16 "00f067aa0ba902b0".toList = true ∧
     TraceContext.isHexStr 2 "01".toList = true ∧
     TraceContext.isHexStr 16 entropyA.span16 = true) ∧
    ((TraceContext.parseTraceParent ("00".toList ++ '-' :: ("4bf92f3577b34da6a3ce929d0e0e4736".toList ++ '-' :: ("00f067aa0ba902b0".toList ++ '-' :: "01".toList)))
        1700000000 entropyA).toTraceParent
      = "00".toList ++ '-' :: ("4bf92f3577b34da6a3ce929d0e0e4736".toList ++ '-' :: (entropyA.span16 ++ '-' :: "01".toList)) ∧
     (TraceContext.parseTraceParent ("00".toList ++ '-' :: ("4bf92f3577b34da6a3ce929d0e0e4736".toList ++ '-' :: ("00f067aa0ba902b0".toList ++ '-' :: "01".toList)))
        1700000000 entropyA).traceId = "4bf92f3577b34da6a3ce929d0e0e4736".toList ∧
     (TraceContext.parseTraceParent ("00".toList ++ '-' :: ("4bf92f3577b34da6a3ce929d0e0e4736".toList ++ '-' :: ("00f067aa0ba902b0".toList ++ '-' :: "01".toList)))
        1700000000 entropyA).version = "00".toList ∧
     (TraceContext.parseTraceParent ("00".toList ++ '-' :: ("4bf92f3577b34da6a3ce929d0e0e4736".toList ++ '-' :: ("00f067aa0ba902b0".toList ++ '-' :: "01".toList)))
        1700000000 entropyA).traceFlags = "01".toList ∧
     TraceContext.isHexStr 16
       (TraceContext.parseTraceParent ("00".toList ++ '-' :: ("4bf92f3577b34da6a3ce929d0e0e4736".toList ++ '-' :: ("00f067aa0ba902b0".toList ++ '-' :: "01".toList)))
        1700000000 entropyA).spanId = true) :=
  ⟨⟨by decide, by decide, by decide, by decide, by decide⟩,
   claim_C4 "00".toList "4bf92f3577b34da6a3ce929d0e0e4736".toList
     "00f067aa0ba902b0".toList "01".toList 1700000000 entropyA
     (by decide) (by decide) (by decide) (by decide) (by decide)⟩

/-! ## C3 -/

/-- An initially empty metadata heap. -/
def metaStore0 : MetaStore Unit := { nextRef := 0, tbl := [] }

/-- C3 counterexample: `RequestContext.create` adopts any truthy
`x-request-id` header value as the request id — here the 8-character
non-hex, non-lowercase value `ZZZZZZZZ` is used verbatim rather than being
replaced by a freshly generated id, refuting the claimed validation. -/
theorem claim_C3_counterexample :
    (RequestContext.create [("x-request-id".toList, "ZZZZZZZZ".toList)]
        LogType.gcp 1700000000 entropyA metaStore0).1.requestId
      = "ZZZZZZZZ".toList ∧
    "ZZZZZZZZ".toList.all isHexLower = false ∧
    "ZZZZZZZZ".toList ≠ entropyA.req32.take 8 := by
  refine ⟨by decide, by decide, by decide⟩

/-- C3 amended: `create` derives `requestId` from the `x-request-id` header
whenever that header is present with a non-empty value, with no validation
of its format; only when the header is absent or empty is a fresh id taken
(the first 8 characters of a 32-hex-character random string, hence 8
characters long when the entropy is well-formed). -/
theorem claim_C3_amended {α : Type} (h : RequestContext.Headers)
    (logType : LogType) (now : Nat) (e : Entropy) (s : MetaStore α)
    (hreq : e.req32.length = 32) :
    (RequestContext.create h logType now e s).1.requestId
      = (if RequestContext.getHeader h "x-request-id".toList ≠ [] then
           RequestContext.getHeader h "x-request-id".toList
         else e.req32.take 8) ∧
    ((RequestContext.getHeader h "x-request-id".toList = []) →
      (RequestContext.create h logType now e s).1.requestId.length = 8) := by
  have hid : (RequestContext.create h logType now e s).1.requestId
      = (if RequestContext.getHeader h "x-request-id".toList ≠ [] then
           RequestContext.getHeader h "x-request-id".toList
         else e.req32.take 8) := rfl
  refine ⟨hid, fun habs => ?_⟩
  rw [hid, if_neg (fun hc => hc habs)]
  simp [List.length_take, hreq]

/-- Witness for C3 (amended): request with no `x-request-id` header. -/
theorem claim_C3_witness :
    entropyA.req32.length = 32 ∧
    ((RequestContext.create [] LogType.gcp 1700000000 entropyA metaStore0).1.requestId
        = (if RequestContext.getHeader [] "x-request-id".toList ≠ [] then
             RequestContext.getHeader [] "x-request-id".toList
           else entropyA.req32.take 8) ∧
     ((RequestContext.getHeader ([] : RequestContext.Headers)
          "x-request-id".toList = []) →
       (RequestContext.create [] LogType.gcp 1700000000 entropyA
           metaStore0).1.requestId.length = 8)) :=
  ⟨by decide,
   claim_C3_amended [] LogType.gcp 1700000000 entropyA metaStore0 (by decide)⟩

/-! ## C9 -/

/-- A context created in AWS mode from a request carrying the example
`x-amzn-trace-id` header. -/
def awsCtxA : RequestContext :=
  (RequestContext.create [("x-amzn-trace-id".toList, amznHeaderA)]
    LogType.aws 1700000000 entropyA metaStore0).1

/-- C9 counterexample: in AWS mode `addTraceHeaders` also writes the
`traceparent` header (a GCP/W3C propagation header), refuting the claim that
the vendor-specific set written in AWS mode is `x-amzn-trace-id` only. -/
theorem claim_C9_counterexample :
    awsCtxA.logType = LogType.aws ∧
    "traceparent".toList ∈
      (awsCtxA.addTraceHeaders [] 1700000000).map Prod.fst := by
  refine ⟨by decide, by decide⟩

/-- C9 amended: `addTraceHeaders` always sets `x-request-id` to the context's
request id; when a trace context is present it writes `traceparent`
unconditionally (in both vendor modes), `tracestate` exactly when the trace
state is non-empty, and then `x-amzn-trace-id` in AWS mode or
`x-cloud-trace-context` in GCP mode — so AWS mode omits only the
GCP-specific `x-cloud-trace-context`, not all W3C/GCP headers. -/
theorem claim_C9_amended (ctx : RequestContext) (now : Nat) :
    ((ctx.addTraceHeaders [] now).map Prod.fst =
      match ctx.traceContext with
      | none => ["x-request-id".toList]
      | some tc =>
        "traceparent".toList ::
          ((if tc.toTraceState ≠ [] then ["tracestate".toList] else []) ++
           [(if ctx.logType = LogType.aws then "x-amzn-trace-id".toList
             else "x-cloud-trace-context".toList),
            "x-request-id".toList])) ∧
    RequestContext.getHeader (ctx.addTraceHeaders [] now) "x-request-id".toList
      = ctx.requestId := by
  obtain ⟨rid, otc, lt, mr⟩ := ctx
  cases otc with
  | none =>
    cases lt <;> constructor <;>
      simp +decide [RequestContext.addTraceHeaders, RequestContext.setKey,
        RequestContext.getHeader]
  | some tc =>
    cases lt <;> by_cases hts : tc.toTraceState = [] <;> constructor <;>
      simp +decide [RequestContext.addTraceHeaders, RequestContext.setKey,
        RequestContext.getHeader, hts]

/-! ## C10 -/

namespace MetaStore

/-- Mapping an update that touches only entries whose reference is `r`
leaves `find?` for a different reference `r'` unchanged. -/
theorem find?_map_upd {β : Type} (t : List (Nat × β)) (r r' : Nat)
    (g : Nat × β → β) (hne : r' ≠ r) :
    (t.map (fun p => if p.1 = r then (p.1, g p) else p)).find?
        (fun p => p.1 = r')
      = t.find? (fun p => p.1 = r') := by
  induction t with
  | nil => rfl
  | cons hd tl ih =>
    simp only [List.map_cons]
    by_cases h1 : hd.1 = r'
    · have hpr : ¬(hd.1 = r) := fun hc => hne (by rw [← h1, hc])
      rw [if_neg hpr]
      rw [List.find?_cons_of_pos _ (by simp [h1]),
        List.find?_cons_of_pos _ (by simp [h1])]
    · have hhead : ((if hd.1 = r then (hd.1, g hd) else hd) : Nat × β).1 = hd.1 := by
        split <;> rfl
      rw [List.find?_cons_of_neg _ (by simp [hhead, h1]),
        List.find?_cons_of_neg _ (by simp [h1])]
      exact ih

theorem readMap_writeKey_ne {α : Type} (s : MetaStore α) (r r' : Nat)
    (k : List Char) (v : α) (hne : r' ≠ r) :
    (s.writeKey r k v).readMap r' = s.readMap r' := by
  obtain ⟨n, tbl⟩ := s
  simp only [writeKey, readMap]
  rw [find?_map_upd tbl r r' _ hne]

end MetaStore

/-- C10: a child context forked by `createChildContext` starts with a fresh
empty metadata map: every key reads as absent on the child even when the
parent's map binds it; writing metadata on the child leaves every read on
the parent exactly as before the fork, and writing on the parent leaves
every read on the child absent. -/
theorem claim_C10 {α : Type} (p : RequestContext) (s : MetaStore α)
    (now : Nat) (e : Entropy) (k k2 : List Char) (v : α)
    (hp : p.metaRef < s.nextRef) :
    (RequestContext.createChildContext p now e s).1.getMetadata
      (RequestContext.createChildContext p now e s).2 k = none ∧
    p.getMetadata
      ((RequestContext.createChildContext p now e s).1.setMetadata
        (RequestContext.createChildContext p now e s).2 k v) k2
      = p.getMetadata s k2 ∧
    (RequestContext.createChildContext p now e s).1.getMetadata
      (p.setMetadata (RequestContext.createChildContext p now e s).2 k v) k2
      = none := by
  have hne : p.metaRef ≠ s.nextRef := Nat.ne_of_lt hp
  have hreadp : ∀ t : MetaStore α,
      t = (RequestContext.createChildContext p now e s).2 →
      t.readMap p.metaRef = s.readMap p.metaRef := by
    intro t ht
    subst ht
    show (MetaStore.mk (s.nextRef + 1) ((s.nextRef, []) :: s.tbl)).readMap
        p.metaRef = s.readMap p.metaRef
    simp only [MetaStore.readMap]
    rw [List.find?_cons_of_neg _ (by simp [Ne.symm hne])]
  refine ⟨?_, ?_, ?_⟩
  · show (match (((RequestContext.createChildContext p now e s).2).readMap
        s.nextRef).find? (fun q => q.1 = k) with
      | some q => some q.2
      | none => none) = none
    have : ((RequestContext.createChildContext p now e s).2).readMap s.nextRef
        = [] := by
      show (MetaStore.mk (s.nextRef + 1) ((s.nextRef, []) :: s.tbl)).readMap
          s.nextRef = []
      simp [MetaStore.readMap, List.find?_cons_of_pos]
    rw [this]
    rfl
  · show (match ((((RequestContext.createChildContext p now e s).2).writeKey
        s.nextRef k v).readMap p.metaRef).find? (fun q => q.1 = k2) with
      | some q => some q.2
      | none => none) = p.getMetadata s k2
    rw [MetaStore.readMap_writeKey_ne _ _ _ _ _ hne,
      hreadp _ rfl]
    rfl
  · show (match ((((RequestContext.createChildContext p now e s).2).writeKey
        p.metaRef k v).readMap s.nextRef).find? (fun q => q.1 = k2) with
      | some q => some q.2
      | none => none) = none
    rw [MetaStore.readMap_writeKey_ne _ _ _ _ _ (Ne.symm hne)]
    have : ((RequestContext.createChildContext p now e s).2).readMap s.nextRef
        = [] := by
      show (MetaStore.mk (s.nextRef + 1) ((s.nextRef, []) :: s.tbl)).readMap
          s.nextRef = []
      simp [MetaStore.readMap, List.find?_cons_of_pos]
    rw [this]
    rfl

/-- A parent context and a heap in which the parent has already set the
metadata key `color`. -/
def p10 : RequestContext :=
  { requestId := "ab".toList, traceContext := none,
    logType := LogType.gcp, metaRef := 0 }

/-- Heap for the C10 witness: one allocated map, bound at the parent's
reference, carrying `color ↦ 3`. -/
def s10 : MetaStore Nat := { nextRef := 1, tbl := [(0, [("color".toList, 3)])] }

/-- Witness for C10: parent has `color` set before the fork, yet the child
reads it as absent; cross-writes stay invisible. -/
theorem claim_C10_witness :
    (p10.metaRef < s10.nextRef ∧ p10.getMetadata s10 "color".toList = some 3) ∧
    ((RequestContext.createChildContext p10 1700000000 entropyA s10).1.getMetadata
      (RequestContext.createChildContext p10 1700000000 entropyA s10).2
      "color".toList = none ∧
    p10.getMetadata
      ((RequestContext.createChildContext p10 1700000000 entropyA s10).1.setMetadata
        (RequestContext.createChildContext p10 1700000000 entropyA s10).2
        "color".toList 7) "color".toList
      = p10.getMetadata s10 "color".toList ∧
    (RequestContext.createChildContext p10 1700000000 entropyA s10).1.getMetadata
      (p10.setMetadata
        (RequestContext.createChildContext p10 1700000000 entropyA s10).2
        "color".toList 7) "color".toList
      = none) :=
  ⟨⟨by decide, by decide⟩,
   claim_C10 p10 s10 1700000000 entropyA "color".toList "color".toList 7
     (by decide)⟩

/-! ## Sanitizers (src/utils/sanitizers.ts)

JavaScript values reaching `sanitizeBody` are modelled by `JsValue`.
Numbers are modelled as integers: the sanitizer only ever tests a number for
truthiness, so the fraction/exponent part of JSON's number grammar is
irrelevant to every claim and the model's `JSON.parse` accepts the integer
subset of it. -/

inductive JsValue where
  | jsNull : JsValue
  | jsBool : Bool → JsValue
  | jsNum : Int → JsValue
  | jsStr : String → JsValue
  | jsArr : List JsValue → JsValue
  | jsObj : List (String × JsValue) → JsValue

namespace JsValue

mutual

/-- Size measure: a parsed value is never larger than the string it was
parsed from, which grounds the recursion of `sanitizeBody` through
`tryParseJson`. -/
def size : JsValue → Nat
  | jsNull => 1
  | jsBool _ => 1
  | jsNum _ => 1
  | jsStr s => s.length + 1
  | jsArr l => 1 + sizeL l
  | jsObj fs => 1 + sizeO fs

def sizeL : List JsValue → Nat
  | [] => 0
  | x :: xs => 1 + size x + sizeL xs

def sizeO : List (String × JsValue) → Nat
  | [] => 0
  | kv :: fs => 1 + size kv.2 + sizeO fs

end

end JsValue

/-- JSON insignificant whitespace. -/
def isJsonWs (c : Char) : Bool :=
  c = ' ' || c = '\t' || c = '\n' || c = '\r'

/-- Skip JSON whitespace. -/
def skipWs (l : List Char) : List Char := l.dropWhile isJsonWs

/-- Hex digit value. -/
def hexVal (c : Char) : Nat :=
  if c.isDigit then c.toNat - 48
  else if 'a' ≤ c ∧ c ≤ 'f' then c.toNat - 87
  else c.toNat - 55

/-- Body of a JSON string after the opening quote: returns the decoded
characters and the rest after the closing quote. -/
def parseStringBody : Nat → List Char → Option (List Char × List Char)
  | 0, _ => none
  | _, [] => none
  | fuel + 1, c :: cs =>
    if c = quoteD then some ([], cs)
    else if c = '\\' then
      match cs with
      | [] => none
      | e :: cs2 =>
        if e = 'u' then
          match cs2 with
          | h1 :: h2 :: h3 :: h4 :: cs3 =>
            if [h1, h2, h3, h4].all isHexAny then
              (parseStringBody fuel cs3).map (fun p =>
                (Char.ofNat (hexVal h1 * 4096 + hexVal h2 * 256 +
                  hexVal h3 * 16 + hexVal h4) :: p.1, p.2))
            else none
          | _ => none
        else if e = 'n' then
          (parseStringBody fuel cs2).map (fun p => ('\n' :: p.1, p.2))
        else if e = 't' then
          (parseStringBody fuel cs2).map (fun p => ('\t' :: p.1, p.2))
        else if e = 'r' then
          (parseStringBody fuel cs2).map (fun p => ('\r' :: p.1, p.2))
        else if e = 'b' then
          (parseStringBody fuel cs2).map (fun p => (Char.ofNat 8 :: p.1, p.2))
        else if e = 'f' then
          (parseStringBody fuel cs2).map (fun p => (Char.ofNat 12 :: p.1, p.2))
        else if e = quoteD || e = '\\' || e = '/' then
          (parseStringBody fuel cs2).map (fun p => (e :: p.1, p.2))
        else none
    else (parseStringBody fuel cs).map (fun p => (c :: p.1, p.2))

/-- Digit run to a natural number. -/
def digitsToNat (ds : List Char) : Nat :=
  ds.foldl (fun a c => a * 10 + (c.toNat - 48)) 0

/-- A JSON (integer) number after an optional sign. -/
def parseDigits (l : List Char) : Option (Nat × List Char) :=
  let ds := l.takeWhile Char.isDigit
  if ds.isEmpty then none else some (digitsToNat ds, l.dropWhile Char.isDigit)

mutual

/-- One JSON value, fuelled recursive descent. -/
def parseVal : Nat → List Char → Option (JsValue × List Char)
  | 0, _ => none
  | fuel + 1, l =>
    match skipWs l with
    | [] => none
    | c :: cs =>
      if c = quoteD then
        match parseStringBody (cs.length + 1) cs with
        | some (s, r) => some (.jsStr (String.mk s), r)
        | none => none
      else if c = '[' then
        match skipWs cs with
        | ']' :: r => some (.jsArr [], r)
        | _ =>
          match parseElems fuel cs with
          | some (es, r) => some (.jsArr es, r)
          | none => none
      else if c = '{' then
        match skipWs cs with
        | '}' :: r => some (.jsObj [], r)
        | _ =>
          match parseMembers fuel cs with
          | some (fs, r) => some (.jsObj fs, r)
          | none => none
      else if c = 't' then
        if ("rue".toList).isPrefixOf cs then some (.jsBool true, cs.drop 3)
        else none
      else if c = 'f' then
        if ("alse".toList).isPrefixOf cs then some (.jsBool false, cs.drop 4)
        else none
      else if c = 'n' then
        if ("ull".toList).isPrefixOf cs then some (.jsNull, cs.drop 3)
        else none
      else if c = '-' then
        match parseDigits cs with
        | some (n, r) => some (.jsNum (-(n : Int)), r)
        | none => none
      else if c.isDigit then
        match parseDigits (c :: cs) with
        | some (n, r) => some (.jsNum (n : Int), r)
        | none => none
      else none

/-- Non-empty comma-separated array elements up to `]`. -/
def parseElems : Nat → List Char → Option (List JsValue × List Char)
  | 0, _ => none
  | fuel + 1, l =>
    match parseVal fuel l with
    | none => none
    | some (v, r) =>
      match skipWs r with
      | ',' :: r2 =>
        match parseElems fuel r2 with
        | some (vs, r3) => some (v :: vs, r3)
        | none => none
      | ']' :: r2 => some ([v], r2)
      | _ => none

/-- Non-empty comma-separated object members up to `}`. -/
def parseMembers : Nat → List Char → Option (List (String × JsValue) × List Char)
  | 0, _ => none
  | fuel + 1, l =>
    match skipWs l with
    | [] => none
    | c :: cs =>
      if c = quoteD then
        match parseStringBody (cs.length + 1) cs with
        | some (ks, r) =>
          match skipWs r with
          | ':' :: r2 =>
            match parseVal fuel r2 with
            | some (v, r3) =>
              match skipWs r3 with
              | ',' :: r4 =>
                match parseMembers fuel r4 with
                | some (fs, r5) => some ((String.mk ks, v) :: fs, r5)
                | none => none
              | '}' :: r4 => some ([(String.mk ks, v)], r4)
              | _ => none
            | none => none
          | _ => none
        | none => none
      else none

end

/-! ### Consumption bounds for the JSON grammar -/

theorem skipWs_length (l : List Char) : (skipWs l).length ≤ l.length :=
  (List.dropWhile_sublist _).length_le

theorem parseStringBody_bound : ∀ (fuel : Nat) (l s r : List Char),
    parseStringBody fuel l = some (s, r) → s.length + r.length + 1 ≤ l.length := by
  intro fuel
  induction fuel with
  | zero => intro l s r h; simp [parseStringBody] at h
  | succ n ih =>
    intro l s r h
    cases l with
    | nil => simp [parseStringBody] at h
    | cons c cs =>
      simp only [parseStringBody] at h
      repeat' split at h
      all_goals try (cases h; simp)
      all_goals try simp at h
      all_goals
        (obtain ⟨s1, hrec, heq⟩ := h
         subst heq
         have := ih _ s1 r hrec
         simp only [List.length_cons] at *
         omega)

theorem parseDigits_bound {l r : List Char} {n : Nat}
    (h : parseDigits l = some (n, r)) : r.length + 1 ≤ l.length := by
  simp only [parseDigits] at h
  split at h
  · exact absurd h (by simp)
  · rename_i hne
    cases h
    have hsum : (l.takeWhile Char.isDigit).length +
        (l.dropWhile Char.isDigit).length = l.length := by
      rw [← List.length_append, List.takeWhile_append_dropWhile]
    have hpos : 0 < (l.takeWhile Char.isDigit).length := by
      cases hta : l.takeWhile Char.isDigit with
      | nil => rw [hta] at hne; simp at hne
      | cons a as => simp [hta]
    omega

theorem skipWs_cons_bound {l r : List Char} {c : Char}
    (h : skipWs l = c :: r) : r.length + 1 ≤ l.length := by
  have h1 := skipWs_length l
  rw [h] at h1
  simpa using h1

theorem parse_bound : ∀ fuel : Nat,
    (∀ l v r, parseVal fuel l = some (v, r) →
      JsValue.size v + r.length ≤ l.length) ∧
    (∀ l es r, parseElems fuel l = some (es, r) →
      JsValue.sizeL es + r.length ≤ l.length) ∧
    (∀ l fs r, parseMembers fuel l = some (fs, r) →
      JsValue.sizeO fs + r.length ≤ l.length) := by
  intro fuel
  induction fuel with
  | zero =>
    refine ⟨?_, ?_, ?_⟩ <;> intro l a r h <;>
      simp [parseVal, parseElems, parseMembers] at h
  | succ n ih =>
    obtain ⟨ihv, ihe, ihm⟩ := ih
    refine ⟨?_, ?_, ?_⟩
    · intro l v r h
      simp only [parseVal] at h
      split at h
      · exact Option.noConfusion h
      · rename_i c cs heq
        have hcs := skipWs_cons_bound heq
        split at h
        · -- string
          split at h
          · rename_i s1 r1 hps
            cases h
            have hb := parseStringBody_bound _ _ _ _ hps
            have hlen : (String.mk s1).length = s1.length := rfl
            simp only [JsValue.size]
            omega
          · exact Option.noConfusion h
        · split at h
          · -- array
            split at h
            · rename_i r1 hsw
              cases h
              have := skipWs_cons_bound hsw
              simp only [JsValue.size, JsValue.sizeL]
              omega
            · split at h
              · rename_i es1 r1 hpe
                cases h
                have := ihe _ _ _ hpe
                simp only [JsValue.size]
                omega
              · exact Option.noConfusion h
          · split at h
            · -- object
              split at h
              · rename_i r1 hsw
                cases h
                have := skipWs_cons_bound hsw
                simp only [JsValue.size, JsValue.sizeO]
                omega
              · split at h
                · rename_i fs1 r1 hpm
                  cases h
                  have := ihm _ _ _ hpm
                  simp only [JsValue.size]
                  omega
                · exact Option.noConfusion h
            · split at h
              · -- true
                split at h
                · cases h
                  have := List.length_drop 3 cs
                  simp only [JsValue.size]
                  omega
                · exact Option.noConfusion h
              · split at h
                · -- false
                  split at h
                  · cases h
                    have := List.length_drop 4 cs
                    simp only [JsValue.size]
                    omega
                  · exact Option.noConfusion h
                · split at h
                  · -- null
                    split at h
                    · cases h
                      have := List.length_drop 3 cs
                      simp only [JsValue.size]
                      omega
                    · exact Option.noConfusion h
                  · split at h
                    · -- negative number
                      split at h
                      · rename_i n1 r1 hpd
                        cases h
                        have := parseDigits_bound hpd
                        simp only [JsValue.size]
                        omega
                      · exact Option.noConfusion h
                    · split at h
                      · -- non-negative number
                        split at h
                        · rename_i n1 r1 hpd
                          cases h
                          have := parseDigits_bound hpd
                          simp only [JsValue.size, List.length_cons] at *
                          omega
                        · exact Option.noConfusion h
                      · exact Option.noConfusion h
    · intro l es r h
      simp only [parseElems] at h
      split at h
      · exact Option.noConfusion h
      · rename_i v1 r1 hv1
        have hb1 := ihv _ _ _ hv1
        split at h
        · -- comma, more elements
          rename_i r2 hsw
          split at h
          · rename_i vs r3 hpe
            cases h
            have hb2 := ihe _ _ _ hpe
            have := skipWs_cons_bound hsw
            simp only [JsValue.sizeL]
            omega
          · exact Option.noConfusion h
        · -- closing bracket
          rename_i r2 hsw
          cases h
          have := skipWs_cons_bound hsw
          simp only [JsValue.sizeL]
          omega
        · exact Option.noConfusion h
    · intro l fs r h
      simp only [parseMembers] at h
      split at h
      · exact Option.noConfusion h
      · rename_i c cs heq
        have hcs := skipWs_cons_bound heq
        split at h
        · -- key string
          split at h
          · rename_i ks r1 hps
            have hbk := parseStringBody_bound _ _ _ _ hps
            split at h
            · -- colon
              rename_i r2 hsw1
              have hl1 := skipWs_cons_bound hsw1
              split at h
              · rename_i v1 r3 hv1
                have hbv := ihv _ _ _ hv1
                split at h
                · -- comma, more members
                  rename_i r4 hsw2
                  have hl2 := skipWs_cons_bound hsw2
                  split at h
                  · rename_i fs1 r5 hpm
                    cases h
                    have hbm := ihm _ _ _ hpm
                    simp only [JsValue.sizeO]
                    omega
                  · exact Option.noConfusion h
                · -- closing brace
                  rename_i r4 hsw2
                  have hl2 := skipWs_cons_bound hsw2
                  cases h
                  simp only [JsValue.sizeO]
                  omega
                · exact Option.noConfusion h
              · exact Option.noConfusion h
            · exact Option.noConfusion h
          · exact Option.noConfusion h
        · exact Option.noConfusion h

theorem jsTrim_length (l : List Char) : (jsTrim l).length ≤ l.length := by
  have h1 : (l.dropWhile Char.isWhitespace).length ≤ l.length :=
    (List.dropWhile_sublist _).length_le
  have h2 : ((l.dropWhile Char.isWhitespace).reverse.dropWhile
        Char.isWhitespace).length
      ≤ (l.dropWhile Char.isWhitespace).reverse.length :=
    (List.dropWhile_sublist _).length_le
  simp only [jsTrim, List.length_reverse] at *
  omega

/-- `tryParseJson(str)` (src/utils/sanitizers.ts): trim, quick `{`/`[` check,
then `JSON.parse` (modelled by `parseVal` run to completion). -/
def tryParseJson (s : String) : Option JsValue :=
  let trimmed := jsTrim s.toList
  if !(['{'].isPrefixOf trimmed) && !(['['].isPrefixOf trimmed) then none
  else
    match parseVal (trimmed.length + 1) trimmed with
    | some (v, r) => if skipWs r = [] then some v else none
    | none => none

theorem tryParseJson_bound {s : String} {v : JsValue}
    (h : tryParseJson s = some v) : JsValue.size v ≤ s.length := by
  simp only [tryParseJson] at h
  split at h
  · exact Option.noConfusion h
  · split at h
    · rename_i v1 r1 hp
      split at h
      · cases h
        have hb := (parse_bound _).1 _ _ _ hp
        have ht := jsTrim_length s.toList
        have hsl : s.toList.length = s.length := rfl
        omega
      · exact Option.noConfusion h
    · exact Option.noConfusion h

/-! ### The sanitizers themselves -/

namespace CONTENT_LIMITS

/-- `CONTENT_LIMITS.JSON_DEPTH`. -/
def JSON_DEPTH : Nat := 10

/-- `CONTENT_LIMITS.ARRAY_LENGTH`. -/
def ARRAY_LENGTH : Nat := 100

end CONTENT_LIMITS

/-- The record of regex tests `PATTERNS` (plus the two inline string tests of
`sanitizeValue`), abstracted as boolean string predicates: the claims are
proved for every instantiation, hence for the concrete regexes. -/
structure Patterns where
  base64Image : String → Bool
  base64Generic : String → Bool
  imageUrl : String → Bool
  creditCard : String → Bool
  ssn : String → Bool
  email : String → Bool

/-- JS `String.prototype.toLowerCase()`. -/
def jsToLower (s : String) : String := String.mk (s.toList.map Char.toLower)

/-- JS `String.prototype.includes(sub)`. -/
def jsIncludes (sub s : String) : Bool := decide (sub.toList <:+: s.toList)

/-- JS `String.prototype.startsWith(pre)`. -/
def jsStartsWith (pre s : String) : Bool := pre.toList.isPrefixOf s.toList

/-- JS truthiness on the modelled values. -/
def jsFalsy : JsValue → Bool
  | .jsNull => true
  | .jsBool b => !b
  | .jsNum n => n = 0
  | .jsStr s => s.isEmpty
  | .jsArr _ => false
  | .jsObj _ => false

/-- `typeof v === 'object'` (true for `null`, arrays and plain objects). -/
def isTypeofObject : JsValue → Bool
  | .jsNull => true
  | .jsArr _ => true
  | .jsObj _ => true
  | _ => false

/-- `sanitizeImageData(value)`. -/
def sanitizeImageData (pats : Patterns) (v : JsValue) : JsValue :=
  match v with
  | .jsStr s =>
    if s.length > 100 then
      if pats.base64Image s || pats.base64Generic s then
        .jsStr "[BASE64 REDACTED]"
      else if pats.imageUrl s then .jsStr "[IMAGE URL REDACTED]"
      else .jsStr s
    else .jsStr s
  | _ => v

/-- `sanitizeValue(key, value, sensitiveFields)`. -/
def sanitizeValue (pats : Patterns) (sens : List String) (k : String)
    (v : JsValue) : JsValue :=
  if sens.contains (jsToLower k) then .jsStr "[REDACTED]"
  else
    match v with
    | .jsStr s =>
      if s.isEmpty then .jsStr s
      else if s.length > 100 then
        if jsIncludes "image" (jsToLower k) || jsStartsWith "data:image/" s then
          .jsStr "[IMAGE DATA REDACTED]"
        else if pats.base64Generic s then .jsStr "[BASE64 DATA REDACTED]"
        else if pats.creditCard s then .jsStr "[CREDIT CARD REDACTED]"
        else if pats.ssn s then .jsStr "[SSN REDACTED]"
        else if pats.email s then .jsStr "[EMAIL REDACTED]"
        else sanitizeImageData pats (.jsStr s)
      else sanitizeImageData pats (.jsStr s)
    | _ => v

theorem sizeL_take (n : Nat) (l : List JsValue) :
    JsValue.sizeL (l.take n) ≤ JsValue.sizeL l := by
  induction l generalizing n with
  | nil => simp
  | cons x xs ih =>
    cases n with
    | zero => simp [JsValue.sizeL]
    | succ m =>
      simp only [List.take_succ_cons, JsValue.sizeL]
      have := ih m
      omega

mutual

/-- `sanitizeBody(obj, sensitiveFields, depth)`. -/
def sanitizeBody (pats : Patterns) (sens : List String) :
    JsValue → Nat → JsValue
  | .jsStr s, depth =>
    match hp : tryParseJson s with
    | some parsed => sanitizeBody pats sens parsed depth
    | none => .jsStr s
  | .jsNull, _ => .jsNull
  | .jsBool b, _ => .jsBool b
  | .jsNum n, _ => .jsNum n
  | .jsArr l, depth =>
    if depth ≥ CONTENT_LIMITS.JSON_DEPTH then .jsStr "[MAX DEPTH EXCEEDED]"
    else .jsArr
      (sanitizeArr pats sens (l.take CONTENT_LIMITS.ARRAY_LENGTH) (depth + 1))
  | .jsObj fs, depth =>
    if depth ≥ CONTENT_LIMITS.JSON_DEPTH then .jsStr "[MAX DEPTH EXCEEDED]"
    else .jsObj (sanitizeFields pats sens fs depth)
termination_by v _ => JsValue.size v
decreasing_by
  · have := tryParseJson_bound hp
    simp only [JsValue.size]
    omega
  · have := sizeL_take CONTENT_LIMITS.ARRAY_LENGTH l
    simp only [JsValue.size]
    omega
  · simp only [JsValue.size]
    omega

/-- The `.map(item => sanitizeBody(item, sensitiveFields, depth + 1))` over a
(truncated) array; `depth` here is already the incremented depth. -/
def sanitizeArr (pats : Patterns) (sens : List String) :
    List JsValue → Nat → List JsValue
  | [], _ => []
  | x :: xs, depth =>
    sanitizeBody pats sens x depth :: sanitizeArr pats sens xs depth
termination_by l _ => JsValue.sizeL l
decreasing_by
  · simp only [JsValue.sizeL]
    omega
  · simp only [JsValue.sizeL]
    omega

/-- The `Object.entries(obj).reduce(...)` over the fields. -/
def sanitizeFields (pats : Patterns) (sens : List String) :
    List (String × JsValue) → Nat → List (String × JsValue)
  | [], _ => []
  | (k, v) :: fs, depth =>
    (k, sanitizeValue pats sens k
      (if isTypeofObject v then sanitizeBody pats sens v (depth + 1) else v)) ::
    sanitizeFields pats sens fs depth
termination_by fs _ => JsValue.sizeO fs
decreasing_by
  · simp only [JsValue.sizeO]
    omega
  · simp only [JsValue.sizeO]
    omega

end

/-! ### Stability of the redaction markers -/

/-- Every string literal the sanitizers can substitute for data. -/
def redactionMarkers : List String :=
  ["[REDACTED]", "[IMAGE DATA REDACTED]", "[BASE64 DATA REDACTED]",
   "[CREDIT CARD REDACTED]", "[SSN REDACTED]", "[EMAIL REDACTED]",
   "[BASE64 REDACTED]", "[IMAGE URL REDACTED]", "[MAX DEPTH EXCEEDED]"]

theorem marker_short {m : String} (hm : m ∈ redactionMarkers) :
    ¬(m.length > 100) := by
  have hall : redactionMarkers.all (fun s => decide (s.length ≤ 100)) = true := by
    decide
  have := List.all_eq_true.mp hall m hm
  simp at this
  omega

theorem marker_no_parse {m : String} (hm : m ∈ redactionMarkers) :
    tryParseJson m = none := by
  have hall : redactionMarkers.all (fun s => (tryParseJson s).isNone) = true := by
    decide
  have := List.all_eq_true.mp hall m hm
  exact Option.isNone_iff_eq_none.mp this

theorem sanitizeImageData_cases (pats : Patterns) (v : JsValue) :
    sanitizeImageData pats v = v ∨
    ∃ m ∈ redactionMarkers, sanitizeImageData pats v = .jsStr m := by
  cases v with
  | jsStr s =>
    by_cases h100 : s.length > 100
    · by_cases hb : pats.base64Image s || pats.base64Generic s
      · right
        exact ⟨"[BASE64 REDACTED]", by decide, by simp [sanitizeImageData, h100, hb]⟩
      · by_cases hu : pats.imageUrl s
        · right
          exact ⟨"[IMAGE URL REDACTED]", by decide,
            by simp [sanitizeImageData, h100, hb, hu]⟩
        · left; simp [sanitizeImageData, h100, hb, hu]
    · left; simp [sanitizeImageData, h100]
  | jsNull => left; rfl
  | jsBool b => left; rfl
  | jsNum n => left; rfl
  | jsArr l => left; rfl
  | jsObj fs => left; rfl

theorem sanitizeImageData_short (pats : Patterns) (s : String)
    (h : ¬(s.length > 100)) : sanitizeImageData pats (.jsStr s) = .jsStr s := by
  simp [sanitizeImageData, h]

theorem sanitizeValue_sensitive (pats : Patterns) (sens : List String)
    (k : String) (v : JsValue) (hk : sens.contains (jsToLower k) = true) :
    sanitizeValue pats sens k v = .jsStr "[REDACTED]" := by
  unfold sanitizeValue
  rw [if_pos hk]

theorem sanitizeValue_str_eq (pats : Patterns) (sens : List String)
    (k : String) (s : String) (hk : sens.contains (jsToLower k) = false) :
    sanitizeValue pats sens k (.jsStr s) =
      (if s.isEmpty then .jsStr s
       else if s.length > 100 then
         if jsIncludes "image" (jsToLower k) || jsStartsWith "data:image/" s then
           .jsStr "[IMAGE DATA REDACTED]"
         else if pats.base64Generic s then .jsStr "[BASE64 DATA REDACTED]"
         else if pats.creditCard s then .jsStr "[CREDIT CARD REDACTED]"
         else if pats.ssn s then .jsStr "[SSN REDACTED]"
         else if pats.email s then .jsStr "[EMAIL REDACTED]"
         else sanitizeImageData pats (.jsStr s)
       else sanitizeImageData pats (.jsStr s)) := by
  unfold sanitizeValue
  rw [if_neg (by intro hc; rw [hc] at hk; exact Bool.noConfusion hk)]

theorem sanitizeValue_not_string (pats : Patterns) (sens : List String)
    (k : String) (v : JsValue) (hk : sens.contains (jsToLower k) = false)
    (hv : ∀ s, v ≠ .jsStr s) : sanitizeValue pats sens k v = v := by
  unfold sanitizeValue
  rw [if_neg (by intro hc; rw [hc] at hk; exact Bool.noConfusion hk)]
  cases v with
  | jsStr s => exact absurd rfl (hv s)
  | jsNull => rfl
  | jsBool b => rfl
  | jsNum n => rfl
  | jsArr l => rfl
  | jsObj fs => rfl

theorem sanitizeValue_marker (pats : Patterns) (sens : List String)
    (k : String) {m : String} (hm : m ∈ redactionMarkers)
    (hk : sens.contains (jsToLower k) = false) :
    sanitizeValue pats sens k (.jsStr m) = .jsStr m := by
  have hlen := marker_short hm
  rw [sanitizeValue_str_eq pats sens k m hk]
  by_cases he : m.isEmpty
  · simp [he]
  · simp [he, hlen, sanitizeImageData_short]

theorem sanitizeValue_cases (pats : Patterns) (sens : List String)
    (k : String) (v : JsValue) :
    sanitizeValue pats sens k v = v ∨
    ∃ m ∈ redactionMarkers, sanitizeValue pats sens k v = .jsStr m := by
  by_cases hk : sens.contains (jsToLower k)
  · right
    exact ⟨"[REDACTED]", by decide, sanitizeValue_sensitive pats sens k v hk⟩
  · simp only [Bool.not_eq_true] at hk
    cases v with
    | jsStr s =>
      rw [sanitizeValue_str_eq pats sens k s hk]
      by_cases he : s.isEmpty
      · left; simp [he]
      · by_cases h100 : s.length > 100
        · by_cases hA : jsIncludes "image" (jsToLower k) || jsStartsWith "data:image/" s
          · right
            exact ⟨"[IMAGE DATA REDACTED]", by decide, by simp [he, h100, hA]⟩
          · by_cases hB : pats.base64Generic s
            · right
              exact ⟨"[BASE64 DATA REDACTED]", by decide,
                by simp [he, h100, hA, hB]⟩
            · by_cases hC : pats.creditCard s
              · right
                exact ⟨"[CREDIT CARD REDACTED]", by decide,
                  by simp [he, h100, hA, hB, hC]⟩
              · by_cases hD : pats.ssn s
                · right
                  exact ⟨"[SSN REDACTED]", by decide,
                    by simp [he, h100, hA, hB, hC, hD]⟩
                · by_cases hE : pats.email s
                  · right
                    exact ⟨"[EMAIL REDACTED]", by decide,
                      by simp [he, h100, hA, hB, hC, hD, hE]⟩
                  · have heq : (if s.isEmpty then JsValue.jsStr s
                        else if s.length > 100 then
                          if jsIncludes "image" (jsToLower k) ||
                              jsStartsWith "data:image/" s then
                            JsValue.jsStr "[IMAGE DATA REDACTED]"
                          else if pats.base64Generic s then
                            JsValue.jsStr "[BASE64 DATA REDACTED]"
                          else if pats.creditCard s then
                            JsValue.jsStr "[CREDIT CARD REDACTED]"
                          else if pats.ssn s then JsValue.jsStr "[SSN REDACTED]"
                          else if pats.email s then
                            JsValue.jsStr "[EMAIL REDACTED]"
                          else sanitizeImageData pats (JsValue.jsStr s)
                        else sanitizeImageData pats (JsValue.jsStr s))
                        = sanitizeImageData pats (JsValue.jsStr s) := by
                      simp [he, h100, hA, hB, hC, hD, hE]
                    rw [heq]
                    exact sanitizeImageData_cases pats (.jsStr s)
        · have heq : (if s.isEmpty then JsValue.jsStr s
              else if s.length > 100 then
                if jsIncludes "image" (jsToLower k) ||
                    jsStartsWith "data:image/" s then
                  JsValue.jsStr "[IMAGE DATA REDACTED]"
                else if pats.base64Generic s then
                  JsValue.jsStr "[BASE64 DATA REDACTED]"
                else if pats.creditCard s then
                  JsValue.jsStr "[CREDIT CARD REDACTED]"
                else if pats.ssn s then JsValue.jsStr "[SSN REDACTED]"
                else if pats.email s then JsValue.jsStr "[EMAIL REDACTED]"
                else sanitizeImageData pats (JsValue.jsStr s)
              else sanitizeImageData pats (JsValue.jsStr s))
              = sanitizeImageData pats (JsValue.jsStr s) := by
            simp [he, h100]
          rw [heq, sanitizeImageData_short pats s h100]
          left; rfl
    | jsNull => left; exact sanitizeValue_not_string _ _ _ _ hk (by intro s h; cases h)
    | jsBool b => left; exact sanitizeValue_not_string _ _ _ _ hk (by intro s h; cases h)
    | jsNum n => left; exact sanitizeValue_not_string _ _ _ _ hk (by intro s h; cases h)
    | jsArr l => left; exact sanitizeValue_not_string _ _ _ _ hk (by intro s h; cases h)
    | jsObj fs => left; exact sanitizeValue_not_string _ _ _ _ hk (by intro s h; cases h)

/-- `sanitizeValue` is idempotent in its value argument. -/
theorem sanitizeValue_idem (pats : Patterns) (sens : List String)
    (k : String) (v : JsValue) :
    sanitizeValue pats sens k (sanitizeValue pats sens k v)
      = sanitizeValue pats sens k v := by
  by_cases hk : sens.contains (jsToLower k)
  · rw [sanitizeValue_sensitive pats sens k v hk,
      sanitizeValue_sensitive pats sens k _ hk]
  · simp only [Bool.not_eq_true] at hk
    rcases sanitizeValue_cases pats sens k v with h | ⟨m, hm, h⟩
    · rw [h, h]
    · rw [h, sanitizeValue_marker pats sens k hm hk]

theorem sanitizeBody_null (pats : Patterns) (sens : List String) (d : Nat) :
    sanitizeBody pats sens .jsNull d = .jsNull := by
  simp [sanitizeBody]

theorem sanitizeBody_bool (pats : Patterns) (sens : List String) (b : Bool)
    (d : Nat) : sanitizeBody pats sens (.jsBool b) d = .jsBool b := by
  simp [sanitizeBody]

theorem sanitizeBody_num (pats : Patterns) (sens : List String) (n : Int)
    (d : Nat) : sanitizeBody pats sens (.jsNum n) d = .jsNum n := by
  simp [sanitizeBody]

theorem sanitizeBody_str_none (pats : Patterns) (sens : List String)
    (s : String) (d : Nat) (h : tryParseJson s = none) :
    sanitizeBody pats sens (.jsStr s) d = .jsStr s := by
  rw [sanitizeBody]
  split
  · rename_i parsed hp
    rw [h] at hp
    exact Option.noConfusion hp
  · rfl

theorem sanitizeBody_str_some (pats : Patterns) (sens : List String)
    (s : String) (d : Nat) (parsed : JsValue)
    (h : tryParseJson s = some parsed) :
    sanitizeBody pats sens (.jsStr s) d = sanitizeBody pats sens parsed d := by
  rw [sanitizeBody]
  split
  · rename_i p hp
    rw [h] at hp
    cases hp
    rfl
  · rename_i hp
    rw [h] at hp
    exact Option.noConfusion hp

theorem sanitizeBody_arr (pats : Patterns) (sens : List String)
    (l : List JsValue) (d : Nat) :
    sanitizeBody pats sens (.jsArr l) d =
      (if d ≥ CONTENT_LIMITS.JSON_DEPTH then .jsStr "[MAX DEPTH EXCEEDED]"
       else .jsArr (sanitizeArr pats sens
         (l.take CONTENT_LIMITS.ARRAY_LENGTH) (d + 1))) := by
  rw [sanitizeBody]

theorem sanitizeBody_obj (pats : Patterns) (sens : List String)
    (fs : List (String × JsValue)) (d : Nat) :
    sanitizeBody pats sens (.jsObj fs) d =
      (if d ≥ CONTENT_LIMITS.JSON_DEPTH then .jsStr "[MAX DEPTH EXCEEDED]"
       else .jsObj (sanitizeFields pats sens fs d)) := by
  rw [sanitizeBody]

theorem sanitizeArr_nil (pats : Patterns) (sens : List String) (d : Nat) :
    sanitizeArr pats sens [] d = [] := by
  rw [sanitizeArr]

theorem sanitizeArr_cons (pats : Patterns) (sens : List String) (x : JsValue)
    (xs : List JsValue) (d : Nat) :
    sanitizeArr pats sens (x :: xs) d
      = sanitizeBody pats sens x d :: sanitizeArr pats sens xs d := by
  rw [sanitizeArr]

theorem sanitizeFields_nil (pats : Patterns) (sens : List String) (d : Nat) :
    sanitizeFields pats sens [] d = [] := by
  rw [sanitizeFields]

theorem sanitizeArr_length (pats : Patterns) (sens : List String)
    (l : List JsValue) (d : Nat) :
    (sanitizeArr pats sens l d).length = l.length := by
  induction l with
  | nil => rw [sanitizeArr_nil]
  | cons x xs ih => rw [sanitizeArr_cons]; simp [ih]

theorem size_mem_le {y : JsValue} {l : List JsValue} (h : y ∈ l) :
    JsValue.size y ≤ JsValue.sizeL l := by
  induction l with
  | nil => cases h
  | cons x xs ih =>
    rcases List.mem_cons.mp h with rfl | hm
    · simp [JsValue.sizeL]
      omega
    · have := ih hm
      simp only [JsValue.sizeL]
      omega

theorem size_memO_le {kv : String × JsValue} {fs : List (String × JsValue)}
    (h : kv ∈ fs) : JsValue.size kv.2 ≤ JsValue.sizeO fs := by
  induction fs with
  | nil => cases h
  | cons x xs ih =>
    rcases List.mem_cons.mp h with rfl | hm
    · simp [JsValue.sizeO]
      omega
    · have := ih hm
      simp only [JsValue.sizeO]
      omega

theorem sanitizeArr_idem_of (pats : Patterns) (sens : List String) (d : Nat)
    (l : List JsValue)
    (IH : ∀ y ∈ l, sanitizeBody pats sens (sanitizeBody pats sens y d) d
      = sanitizeBody pats sens y d) :
    sanitizeArr pats sens (sanitizeArr pats sens l d) d
      = sanitizeArr pats sens l d := by
  induction l with
  | nil => rw [sanitizeArr_nil, sanitizeArr_nil]
  | cons x xs ih =>
    simp only [sanitizeArr_cons]
    rw [IH x (List.mem_cons_self x xs),
      ih (fun y hy => IH y (List.mem_cons_of_mem x hy))]

/-- The value stored for one object entry by the `reduce` body. -/
def sanitizeEntryVal (pats : Patterns) (sens : List String) (k : String)
    (v : JsValue) (d : Nat) : JsValue :=
  sanitizeValue pats sens k
    (if isTypeofObject v then sanitizeBody pats sens v (d + 1) else v)

theorem sanitizeFields_cons (pats : Patterns) (sens : List String)
    (k : String) (v : JsValue) (fs : List (String × JsValue)) (d : Nat) :
    sanitizeFields pats sens ((k, v) :: fs) d
      = (k, sanitizeEntryVal pats sens k v d) :: sanitizeFields pats sens fs d := by
  rw [sanitizeFields]
  rfl

theorem sanitizeEntryVal_idem (pats : Patterns) (sens : List String)
    (k : String) (v : JsValue) (d : Nat)
    (IHv : sanitizeBody pats sens (sanitizeBody pats sens v (d + 1)) (d + 1)
      = sanitizeBody pats sens v (d + 1)) :
    sanitizeEntryVal pats sens k (sanitizeEntryVal pats sens k v d) d
      = sanitizeEntryVal pats sens k v d := by
  unfold sanitizeEntryVal
  by_cases hobj : isTypeofObject (sanitizeValue pats sens k
      (if isTypeofObject v then sanitizeBody pats sens v (d + 1) else v))
  · rw [if_pos hobj]
    rcases sanitizeValue_cases pats sens k
        (if isTypeofObject v then sanitizeBody pats sens v (d + 1) else v)
      with hc | ⟨m, hm, hc⟩
    · rw [hc] at hobj ⊢
      by_cases hv : isTypeofObject v
      · have hc2 := hc
        rw [if_pos hv] at hc2 ⊢
        rw [IHv]
        exact hc2
      · rw [if_neg hv] at hobj
        exact absurd hobj hv
    · rw [hc] at hobj
      exact absurd hobj (by simp [isTypeofObject])
  · rw [if_neg hobj]
    exact sanitizeValue_idem pats sens k _

theorem sanitizeFields_idem_of (pats : Patterns) (sens : List String)
    (d : Nat) (fs : List (String × JsValue))
    (IH : ∀ kv ∈ fs,
      sanitizeBody pats sens (sanitizeBody pats sens kv.2 (d + 1)) (d + 1)
        = sanitizeBody pats sens kv.2 (d + 1)) :
    sanitizeFields pats sens (sanitizeFields pats sens fs d) d
      = sanitizeFields pats sens fs d := by
  induction fs with
  | nil => rw [sanitizeFields_nil, sanitizeFields_nil]
  | cons kv rest ih =>
    obtain ⟨k, v⟩ := kv
    simp only [sanitizeFields_cons]
    rw [sanitizeEntryVal_idem pats sens k v d
        (IH (k, v) (List.mem_cons_self _ _)),
      ih (fun kv hkv => IH kv (List.mem_cons_of_mem _ hkv))]

/-- C5 core: `sanitizeBody` is idempotent at every depth. -/
theorem sanitizeBody_idem (pats : Patterns) (sens : List String) (x : JsValue)
    (d : Nat) :
    sanitizeBody pats sens (sanitizeBody pats sens x d) d
      = sanitizeBody pats sens x d := by
  suffices H : ∀ N (y : JsValue) (d : Nat), JsValue.size y ≤ N →
      sanitizeBody pats sens (sanitizeBody pats sens y d) d
        = sanitizeBody pats sens y d from H (JsValue.size x) x d le_rfl
  intro N
  induction N with
  | zero =>
    intro y d hy
    cases y <;> simp [JsValue.size] at hy
  | succ N ihN =>
    intro y d hy
    cases y with
    | jsNull => rw [sanitizeBody_null, sanitizeBody_null]
    | jsBool b => rw [sanitizeBody_bool, sanitizeBody_bool]
    | jsNum n => rw [sanitizeBody_num, sanitizeBody_num]
    | jsStr s =>
      cases hps : tryParseJson s with
      | none =>
        rw [sanitizeBody_str_none _ _ _ _ hps, sanitizeBody_str_none _ _ _ _ hps]
      | some parsed =>
        rw [sanitizeBody_str_some _ _ _ _ _ hps]
        apply ihN
        have hb := tryParseJson_bound hps
        simp only [JsValue.size] at hy
        omega
    | jsArr l =>
      by_cases hd : d ≥ CONTENT_LIMITS.JSON_DEPTH
      · rw [sanitizeBody_arr, if_pos hd,
          sanitizeBody_str_none _ _ _ _ (marker_no_parse (by decide))]
      · rw [sanitizeBody_arr, if_neg hd, sanitizeBody_arr, if_neg hd]
        have hlen : (sanitizeArr pats sens
            (l.take CONTENT_LIMITS.ARRAY_LENGTH) (d + 1)).length
            ≤ CONTENT_LIMITS.ARRAY_LENGTH := by
          rw [sanitizeArr_length]
          rw [List.length_take]
          omega
        rw [List.take_of_length_le hlen]
        congr 1
        apply sanitizeArr_idem_of
        intro y hy2
        apply ihN
        have h1 := size_mem_le hy2
        have h2 := sizeL_take CONTENT_LIMITS.ARRAY_LENGTH l
        simp only [JsValue.size] at hy
        omega
    | jsObj fs =>
      by_cases hd : d ≥ CONTENT_LIMITS.JSON_DEPTH
      · rw [sanitizeBody_obj, if_pos hd,
          sanitizeBody_str_none _ _ _ _ (marker_no_parse (by decide))]
      · rw [sanitizeBody_obj, if_neg hd, sanitizeBody_obj, if_neg hd]
        congr 1
        apply sanitizeFields_idem_of
        intro kv hkv
        apply ihN
        have h1 := size_memO_le hkv
        simp only [JsValue.size] at hy
        omega

/-- C5: `sanitizeBody` is idempotent — for every value and every
sensitive-field policy (and every instantiation of the regex patterns),
sanitizing twice gives exactly the result of sanitizing once: every
redaction marker, truncated array and depth marker produced by the first
pass is left unchanged by the second. -/
theorem claim_C5 (pats : Patterns) (sens : List String) (x : JsValue) :
    sanitizeBody pats sens (sanitizeBody pats sens x 0) 0
      = sanitizeBody pats sens x 0 :=
  sanitizeBody_idem pats sens x 0

theorem sanitizeArr_eq_map (pats : Patterns) (sens : List String)
    (l : List JsValue) (d : Nat) :
    sanitizeArr pats sens l d = l.map (fun y => sanitizeBody pats sens y d) := by
  induction l with
  | nil => rw [sanitizeArr_nil]; rfl
  | cons x xs ih => rw [sanitizeArr_cons, ih]; rfl

/-- C7: under the depth limit, `sanitizeBody` on an array truncates to the
first `ARRAY_LENGTH` (100) elements *before* mapping the per-element
recursion, so elements past index 99 are never recursed into, and the
output length is `min 100 (length)` — an array of 500 elements yields
exactly 100. -/
theorem claim_C7 (pats : Patterns) (sens : List String) (l : List JsValue)
    (d : Nat) (hd : d < CONTENT_LIMITS.JSON_DEPTH) :
    sanitizeBody pats sens (.jsArr l) d
      = .jsArr ((l.take CONTENT_LIMITS.ARRAY_LENGTH).map
          (fun y => sanitizeBody pats sens y (d + 1))) ∧
    ((l.take CONTENT_LIMITS.ARRAY_LENGTH).map
        (fun y => sanitizeBody pats sens y (d + 1))).length
      = min CONTENT_LIMITS.ARRAY_LENGTH l.length := by
  constructor
  · rw [sanitizeBody_arr, if_neg (by omega), sanitizeArr_eq_map]
  · simp [List.length_take]

/-- A trivial all-false pattern instantiation, usable wherever a claim is
proved for every `Patterns`. -/
def patternsNone : Patterns :=
  { base64Image := fun _ => false, base64Generic := fun _ => false,
    imageUrl := fun _ => false, creditCard := fun _ => false,
    ssn := fun _ => false, email := fun _ => false }

/-- Witness for C7: an array of 500 numbers sanitizes to exactly 100
elements. -/
theorem claim_C7_witness :
    (0 < CONTENT_LIMITS.JSON_DEPTH) ∧
    (sanitizeBody patternsNone [] (.jsArr (List.replicate 500 (.jsNum 1))) 0
      = .jsArr (((List.replicate 500 (JsValue.jsNum 1)).take
          CONTENT_LIMITS.ARRAY_LENGTH).map
          (fun y => sanitizeBody patternsNone [] y (0 + 1))) ∧
    (((List.replicate 500 (JsValue.jsNum 1)).take
        CONTENT_LIMITS.ARRAY_LENGTH).map
        (fun y => sanitizeBody patternsNone [] y (0 + 1))).length
      = min CONTENT_LIMITS.ARRAY_LENGTH
          (List.replicate 500 (JsValue.jsNum 1)).length) :=
  ⟨by decide,
   claim_C7 patternsNone [] (List.replicate 500 (.jsNum 1)) 0 (by decide)⟩

/-! ### Depth bounds for C6 -/

namespace JsValue

mutual

/-- Container nesting height: leaves are 0, containers one more than their
deepest child. -/
def height : JsValue → Nat
  | jsNull => 0
  | jsBool _ => 0
  | jsNum _ => 0
  | jsStr _ => 0
  | jsArr l => 1 + heightL l
  | jsObj fs => 1 + heightO fs

def heightL : List JsValue → Nat
  | [] => 0
  | x :: xs => max (height x) (heightL xs)

def heightO : List (String × JsValue) → Nat
  | [] => 0
  | kv :: fs => max (height kv.2) (heightO fs)

end

end JsValue

theorem heightL_le (l : List JsValue) (b : Nat)
    (h : ∀ y ∈ l, JsValue.height y ≤ b) : JsValue.heightL l ≤ b := by
  induction l with
  | nil => simp [JsValue.heightL]
  | cons x xs ih =>
    simp only [JsValue.heightL, max_le_iff]
    exact ⟨h x (List.mem_cons_self x xs),
      ih (fun y hy => h y (List.mem_cons_of_mem x hy))⟩

theorem heightO_le (fs : List (String × JsValue)) (b : Nat)
    (h : ∀ kv ∈ fs, JsValue.height kv.2 ≤ b) : JsValue.heightO fs ≤ b := by
  induction fs with
  | nil => simp [JsValue.heightO]
  | cons kv rest ih =>
    simp only [JsValue.heightO, max_le_iff]
    exact ⟨h kv (List.mem_cons_self kv rest),
      ih (fun x hx => h x (List.mem_cons_of_mem kv hx))⟩

theorem sanitizeEntryVal_height (pats : Patterns) (sens : List String)
    (k : String) (v : JsValue) (d : Nat) (b : Nat)
    (hv : JsValue.height (sanitizeBody pats sens v (d + 1)) ≤ b) :
    JsValue.height (sanitizeEntryVal pats sens k v d) ≤ b := by
  unfold sanitizeEntryVal
  rcases sanitizeValue_cases pats sens k
      (if isTypeofObject v then sanitizeBody pats sens v (d + 1) else v)
    with hc | ⟨m, hm, hc⟩
  · rw [hc]
    by_cases hvo : isTypeofObject v
    · rw [if_pos hvo]
      exact hv
    · rw [if_neg hvo]
      cases v with
      | jsArr l => exact absurd (by simp [isTypeofObject]) hvo
      | jsObj fs => exact absurd (by simp [isTypeofObject]) hvo
      | jsNull => exact absurd (by simp [isTypeofObject]) hvo
      | jsBool x => simp [JsValue.height]
      | jsNum x => simp [JsValue.height]
      | jsStr x => simp [JsValue.height]
  · rw [hc]
    simp [JsValue.height]

/-- Height bound: the output of `sanitizeBody` at depth `d ≤ JSON_DEPTH`
never nests containers more than `JSON_DEPTH - d` deep — nothing below the
depth boundary survives into the output. -/
theorem sanitizeBody_height (pats : Patterns) (sens : List String)
    (x : JsValue) (d : Nat) (hd : d ≤ CONTENT_LIMITS.JSON_DEPTH) :
    JsValue.height (sanitizeBody pats sens x d) + d
      ≤ CONTENT_LIMITS.JSON_DEPTH := by
  suffices H : ∀ N (y : JsValue) (d : Nat), JsValue.size y ≤ N →
      d ≤ CONTENT_LIMITS.JSON_DEPTH →
      JsValue.height (sanitizeBody pats sens y d) + d
        ≤ CONTENT_LIMITS.JSON_DEPTH from H (JsValue.size x) x d le_rfl hd
  intro N
  induction N with
  | zero =>
    intro y d hy _
    cases y <;> simp [JsValue.size] at hy
  | succ N ihN =>
    intro y d hy hd
    cases y with
    | jsNull => rw [sanitizeBody_null]; simpa [JsValue.height] using hd
    | jsBool b => rw [sanitizeBody_bool]; simpa [JsValue.height] using hd
    | jsNum n => rw [sanitizeBody_num]; simpa [JsValue.height] using hd
    | jsStr s =>
      cases hps : tryParseJson s with
      | none =>
        rw [sanitizeBody_str_none _ _ _ _ hps]
        simpa [JsValue.height] using hd
      | some parsed =>
        rw [sanitizeBody_str_some _ _ _ _ _ hps]
        refine ihN parsed d ?_ hd
        have hb := tryParseJson_bound hps
        simp only [JsValue.size] at hy
        omega
    | jsArr l =>
      by_cases hge : d ≥ CONTENT_LIMITS.JSON_DEPTH
      · rw [sanitizeBody_arr, if_pos hge]
        simpa [JsValue.height] using hd
      · rw [sanitizeBody_arr, if_neg hge]
        simp only [JsValue.height]
        have hL : JsValue.heightL (sanitizeArr pats sens
            (l.take CONTENT_LIMITS.ARRAY_LENGTH) (d + 1))
            ≤ CONTENT_LIMITS.JSON_DEPTH - (d + 1) := by
          apply heightL_le
          intro y hy2
          rw [sanitizeArr_eq_map] at hy2
          obtain ⟨z, hz, rfl⟩ := List.mem_map.mp hy2
          have hsz : JsValue.size z ≤ N := by
            have h1 := size_mem_le hz
            have h2 := sizeL_take CONTENT_LIMITS.ARRAY_LENGTH l
            simp only [JsValue.size] at hy
            omega
          have := ihN z (d + 1) hsz (by omega)
          omega
        omega
    | jsObj fs =>
      by_cases hge : d ≥ CONTENT_LIMITS.JSON_DEPTH
      · rw [sanitizeBody_obj, if_pos hge]
        simpa [JsValue.height] using hd
      · rw [sanitizeBody_obj, if_neg hge]
        simp only [JsValue.height]
        have hO : JsValue.heightO (sanitizeFields pats sens fs d)
            ≤ CONTENT_LIMITS.JSON_DEPTH - (d + 1) := by
          apply heightO_le
          intro kv hkv
          -- every entry of the sanitized fields is (k, sanitizeEntryVal k v d)
          -- for some (k, v) ∈ fs
          obtain ⟨k0, v0, hmem, hkv2⟩ :
              ∃ k0 v0, (k0, v0) ∈ fs ∧
                kv = (k0, sanitizeEntryVal pats sens k0 v0 d) := by
            clear hy
            induction fs with
            | nil => rw [sanitizeFields_nil] at hkv; cases hkv
            | cons kv1 rest ih =>
              obtain ⟨k1, v1⟩ := kv1
              rw [sanitizeFields_cons] at hkv
              rcases List.mem_cons.mp hkv with rfl | hm
              · exact ⟨k1, v1, List.mem_cons_self _ _, rfl⟩
              · obtain ⟨k0, v0, hmem, hkv2⟩ := ih hm
                exact ⟨k0, v0, List.mem_cons_of_mem _ hmem, hkv2⟩
          rw [hkv2]
          apply sanitizeEntryVal_height
          have hsz : JsValue.size v0 ≤ N := by
            have h1 := size_memO_le hmem
            simp only [JsValue.size] at hy h1
            omega
          have := ihN v0 (d + 1) hsz (by omega)
          omega
        omega

/-! ### Key containment for C6 -/

mutual

/-- All object keys occurring anywhere in a value. -/
def allKeys : JsValue → List String
  | .jsNull => []
  | .jsBool _ => []
  | .jsNum _ => []
  | .jsStr _ => []
  | .jsArr l => allKeysL l
  | .jsObj fs => allKeysO fs

def allKeysL : List JsValue → List String
  | [] => []
  | x :: xs => allKeys x ++ allKeysL xs

def allKeysO : List (String × JsValue) → List String
  | [] => []
  | kv :: fs => kv.1 :: (allKeys kv.2 ++ allKeysO fs)

end

mutual

/-- Object keys reachable within `fuel` container levels, following the
JSON-string parsing that `sanitizeBody` performs. -/
def shallowKeys : Nat → JsValue → List String
  | fuel, .jsStr s =>
    match hp : tryParseJson s with
    | some parsed => shallowKeys fuel parsed
    | none => []
  | _, .jsNull => []
  | _, .jsBool _ => []
  | _, .jsNum _ => []
  | 0, .jsArr _ => []
  | 0, .jsObj _ => []
  | fuel + 1, .jsArr l => shallowKeysL fuel l
  | fuel + 1, .jsObj fs => shallowKeysO fuel fs
termination_by fuel v => (fuel, JsValue.size v)
decreasing_by
  · have := tryParseJson_bound hp
    apply Prod.Lex.right
    simp only [JsValue.size]
    omega
  · apply Prod.Lex.left
    omega
  · apply Prod.Lex.left
    omega

def shallowKeysL : Nat → List JsValue → List String
  | _, [] => []
  | fuel, x :: xs => shallowKeys fuel x ++ shallowKeysL fuel xs
termination_by fuel l => (fuel, JsValue.sizeL l)
decreasing_by
  · apply Prod.Lex.right
    simp only [JsValue.sizeL]
    omega
  · apply Prod.Lex.right
    simp only [JsValue.sizeL]
    omega

def shallowKeysO : Nat → List (String × JsValue) → List String
  | _, [] => []
  | fuel, kv :: fs => kv.1 :: (shallowKeys fuel kv.2 ++ shallowKeysO fuel fs)
termination_by fuel fs => (fuel, JsValue.sizeO fs)
decreasing_by
  · apply Prod.Lex.right
    simp only [JsValue.sizeO]
    omega
  · apply Prod.Lex.right
    simp only [JsValue.sizeO]
    omega

end

theorem shallowKeys_str_some (fuel : Nat) (s : String) (parsed : JsValue)
    (h : tryParseJson s = some parsed) :
    shallowKeys fuel (.jsStr s) = shallowKeys fuel parsed := by
  rw [shallowKeys]
  split
  · rename_i p hp
    rw [h] at hp
    cases hp
    rfl
  · rename_i hp
    rw [h] at hp
    exact Option.noConfusion hp

theorem shallowKeys_arr (fuel : Nat) (l : List JsValue) :
    shallowKeys (fuel + 1) (.jsArr l) = shallowKeysL fuel l := by
  rw [shallowKeys]

theorem shallowKeys_obj (fuel : Nat) (fs : List (String × JsValue)) :
    shallowKeys (fuel + 1) (.jsObj fs) = shallowKeysO fuel fs := by
  rw [shallowKeys]

theorem shallowKeysL_nil (fuel : Nat) : shallowKeysL fuel [] = [] := by
  rw [shallowKeysL]

theorem shallowKeysL_cons (fuel : Nat) (x : JsValue) (xs : List JsValue) :
    shallowKeysL fuel (x :: xs)
      = shallowKeys fuel x ++ shallowKeysL fuel xs := by
  rw [shallowKeysL]

theorem shallowKeysO_cons (fuel : Nat) (kv : String × JsValue)
    (fs : List (String × JsValue)) :
    shallowKeysO fuel (kv :: fs)
      = kv.1 :: (shallowKeys fuel kv.2 ++ shallowKeysO fuel fs) := by
  rw [shallowKeysO]

theorem mem_allKeysL {k : String} {l : List JsValue}
    (h : k ∈ allKeysL l) : ∃ y ∈ l, k ∈ allKeys y := by
  induction l with
  | nil => cases h
  | cons x xs ih =>
    rw [allKeysL] at h
    rcases List.mem_append.mp h with h1 | h2
    · exact ⟨x, List.mem_cons_self x xs, h1⟩
    · obtain ⟨y, hy, hk⟩ := ih h2
      exact ⟨y, List.mem_cons_of_mem x hy, hk⟩

theorem mem_allKeysO {k : String} {fs : List (String × JsValue)}
    (h : k ∈ allKeysO fs) : ∃ kv ∈ fs, k = kv.1 ∨ k ∈ allKeys kv.2 := by
  induction fs with
  | nil => cases h
  | cons kv rest ih =>
    rw [allKeysO] at h
    rcases List.mem_cons.mp h with rfl | h2
    · exact ⟨kv, List.mem_cons_self kv rest, Or.inl rfl⟩
    · rcases List.mem_append.mp h2 with h3 | h4
      · exact ⟨kv, List.mem_cons_self kv rest, Or.inr h3⟩
      · obtain ⟨kv2, hkv2, hk⟩ := ih h4
        exact ⟨kv2, List.mem_cons_of_mem kv hkv2, hk⟩

theorem mem_shallowKeysL {k : String} {fuel : Nat} {y : JsValue}
    {l : List JsValue} (hy : y ∈ l) (hk : k ∈ shallowKeys fuel y) :
    k ∈ shallowKeysL fuel l := by
  induction l with
  | nil => cases hy
  | cons x xs ih =>
    rw [shallowKeysL_cons]
    rcases List.mem_cons.mp hy with rfl | hm
    · exact List.mem_append_left _ hk
    · exact List.mem_append_right _ (ih hm)

theorem mem_shallowKeysO_key {fuel : Nat} {kv : String × JsValue}
    {fs : List (String × JsValue)} (h : kv ∈ fs) :
    kv.1 ∈ shallowKeysO fuel fs := by
  induction fs with
  | nil => cases h
  | cons x xs ih =>
    rw [shallowKeysO_cons]
    rcases List.mem_cons.mp h with rfl | hm
    · exact List.mem_cons_self _ _
    · exact List.mem_cons_of_mem _ (List.mem_append_right _ (ih hm))

theorem mem_shallowKeysO_val {k : String} {fuel : Nat} {kv : String × JsValue}
    {fs : List (String × JsValue)} (h : kv ∈ fs)
    (hk : k ∈ shallowKeys fuel kv.2) : k ∈ shallowKeysO fuel fs := by
  induction fs with
  | nil => cases h
  | cons x xs ih =>
    rw [shallowKeysO_cons]
    rcases List.mem_cons.mp h with rfl | hm
    · exact List.mem_cons_of_mem _ (List.mem_append_left _ hk)
    · exact List.mem_cons_of_mem _ (List.mem_append_right _ (ih hm))

theorem sanitizeFields_mem {pats : Patterns} {sens : List String}
    {fs : List (String × JsValue)} {d : Nat} {kv : String × JsValue}
    (h : kv ∈ sanitizeFields pats sens fs d) :
    ∃ k0 v0, (k0, v0) ∈ fs ∧
      kv = (k0, sanitizeEntryVal pats sens k0 v0 d) := by
  induction fs with
  | nil => rw [sanitizeFields_nil] at h; cases h
  | cons kv1 rest ih =>
    obtain ⟨k1, v1⟩ := kv1
    rw [sanitizeFields_cons] at h
    rcases List.mem_cons.mp h with rfl | hm
    · exact ⟨k1, v1, List.mem_cons_self _ _, rfl⟩
    · obtain ⟨k0, v0, hmem, hkv⟩ := ih hm
      exact ⟨k0, v0, List.mem_cons_of_mem _ hmem, hkv⟩

theorem allKeys_entryVal {pats : Patterns} {sens : List String} {k0 : String}
    {v : JsValue} {d : Nat} {k : String}
    (h : k ∈ allKeys (sanitizeEntryVal pats sens k0 v d)) :
    k ∈ allKeys (sanitizeBody pats sens v (d + 1)) := by
  unfold sanitizeEntryVal at h
  rcases sanitizeValue_cases pats sens k0
      (if isTypeofObject v then sanitizeBody pats sens v (d + 1) else v)
    with hc | ⟨m, hm, hc⟩
  · rw [hc] at h
    by_cases hvo : isTypeofObject v
    · rw [if_pos hvo] at h
      exact h
    · rw [if_neg hvo] at h
      cases v with
      | jsArr l => exact absurd (by simp [isTypeofObject]) hvo
      | jsObj fs => exact absurd (by simp [isTypeofObject]) hvo
      | jsNull => exact absurd (by simp [isTypeofObject]) hvo
      | jsBool x => rw [allKeys] at h; cases h
      | jsNum x => rw [allKeys] at h; cases h
      | jsStr x => rw [allKeys] at h; cases h
  · rw [hc] at h
    rw [allKeys] at h
    cases h

/-- Key containment: every object key in the output of `sanitizeBody` at
depth `d` already occurs within the first `JSON_DEPTH − d` container levels
of the input (JSON strings being parsed as `sanitizeBody` does) — no key
from below the depth boundary appears anywhere in the output. -/
theorem sanitizeBody_keys (pats : Patterns) (sens : List String) (x : JsValue)
    (d : Nat) (k : String)
    (hk : k ∈ allKeys (sanitizeBody pats sens x d)) :
    k ∈ shallowKeys (CONTENT_LIMITS.JSON_DEPTH - d) x := by
  suffices H : ∀ N (y : JsValue) (d : Nat), JsValue.size y ≤ N →
      ∀ k, k ∈ allKeys (sanitizeBody pats sens y d) →
        k ∈ shallowKeys (CONTENT_LIMITS.JSON_DEPTH - d) y from
    H (JsValue.size x) x d le_rfl k hk
  intro N
  induction N with
  | zero =>
    intro y d hy
    cases y <;> simp [JsValue.size] at hy
  | succ N ihN =>
    intro y d hy k hk
    cases y with
    | jsNull => rw [sanitizeBody_null, allKeys] at hk; cases hk
    | jsBool b => rw [sanitizeBody_bool, allKeys] at hk; cases hk
    | jsNum n => rw [sanitizeBody_num, allKeys] at hk; cases hk
    | jsStr s =>
      cases hps : tryParseJson s with
      | none =>
        rw [sanitizeBody_str_none _ _ _ _ hps, allKeys] at hk
        cases hk
      | some parsed =>
        rw [sanitizeBody_str_some _ _ _ _ _ hps] at hk
        rw [shallowKeys_str_some _ _ _ hps]
        refine ihN parsed d ?_ k hk
        have hb := tryParseJson_bound hps
        simp only [JsValue.size] at hy
        omega
    | jsArr l =>
      by_cases hge : d ≥ CONTENT_LIMITS.JSON_DEPTH
      · rw [sanitizeBody_arr, if_pos hge, allKeys] at hk
        cases hk
      · rw [sanitizeBody_arr, if_neg hge, allKeys] at hk
        obtain ⟨y1, hy1, hk1⟩ := mem_allKeysL hk
        rw [sanitizeArr_eq_map] at hy1
        obtain ⟨z, hz, rfl⟩ := List.mem_map.mp hy1
        have hsz : JsValue.size z ≤ N := by
          have h1 := size_mem_le hz
          have h2 := sizeL_take CONTENT_LIMITS.ARRAY_LENGTH l
          simp only [JsValue.size] at hy
          omega
        have hrec := ihN z (d + 1) hsz k hk1
        have hfuel : CONTENT_LIMITS.JSON_DEPTH - d
            = (CONTENT_LIMITS.JSON_DEPTH - (d + 1)) + 1 := by
          simp only [CONTENT_LIMITS.JSON_DEPTH] at *
          omega
        rw [hfuel, shallowKeys_arr]
        exact mem_shallowKeysL (List.mem_of_mem_take hz) hrec
    | jsObj fs =>
      by_cases hge : d ≥ CONTENT_LIMITS.JSON_DEPTH
      · rw [sanitizeBody_obj, if_pos hge, allKeys] at hk
        cases hk
      · rw [sanitizeBody_obj, if_neg hge, allKeys] at hk
        obtain ⟨kv, hkv, hcase⟩ := mem_allKeysO hk
        obtain ⟨k0, v0, hmem, rfl⟩ := sanitizeFields_mem hkv
        have hfuel : CONTENT_LIMITS.JSON_DEPTH - d
            = (CONTENT_LIMITS.JSON_DEPTH - (d + 1)) + 1 := by
          simp only [CONTENT_LIMITS.JSON_DEPTH] at *
          omega
        rw [hfuel, shallowKeys_obj]
        rcases hcase with rfl | hval
        · exact @mem_shallowKeysO_key (CONTENT_LIMITS.JSON_DEPTH - (d + 1)) _ _ hmem
        · have hk2 := allKeys_entryVal hval
          have hsz : JsValue.size v0 ≤ N := by
            have h1 := size_memO_le hmem
            simp only [JsValue.size] at hy h1
            omega
          have hrec := ihN v0 (d + 1) hsz k hk2
          exact mem_shallowKeysO_val hmem hrec

/-- `DEFAULT_SENSITIVE_FIELDS` (src/config/constants.ts). -/
def DEFAULT_SENSITIVE_FIELDS : List String :=
  ["password", "token", "authorization", "key", "secret", "credential",
   "creditcard", "credit_card", "cardnumber", "apikey", "phone", "email",
   "dob", "birth", "social"]

/-- C6: at or beyond the depth limit (10 container levels), `sanitizeBody`
replaces an entire array or object subtree with the depth marker without
raising; consequently the output of a top-level sanitization never nests
containers deeper than `JSON_DEPTH`, and every object key in the output
already occurs within the first `JSON_DEPTH` container levels of the input
— nothing from below the boundary appears in the output. -/
theorem claim_C6 (pats : Patterns) (sens : List String) :
    (∀ (l : List JsValue) (d : Nat), d ≥ CONTENT_LIMITS.JSON_DEPTH →
      sanitizeBody pats sens (.jsArr l) d = .jsStr "[MAX DEPTH EXCEEDED]") ∧
    (∀ (fs : List (String × JsValue)) (d : Nat),
      d ≥ CONTENT_LIMITS.JSON_DEPTH →
      sanitizeBody pats sens (.jsObj fs) d = .jsStr "[MAX DEPTH EXCEEDED]") ∧
    (∀ x : JsValue,
      JsValue.height (sanitizeBody pats sens x 0) ≤ CONTENT_LIMITS.JSON_DEPTH) ∧
    (∀ (x : JsValue) (k : String), k ∈ allKeys (sanitizeBody pats sens x 0) →
      k ∈ shallowKeys CONTENT_LIMITS.JSON_DEPTH x) := by
  refine ⟨?_, ?_, ?_, ?_⟩
  · intro l d hd
    rw [sanitizeBody_arr, if_pos hd]
  · intro fs d hd
    rw [sanitizeBody_obj, if_pos hd]
  · intro x
    have := sanitizeBody_height pats sens x 0 (by simp)
    omega
  · intro x k hk
    have := sanitizeBody_keys pats sens x 0 k hk
    simpa using this

/-- Witness for C6: an object one level past the boundary collapses to the
marker; key containment instantiated on a concrete nested object. -/
theorem claim_C6_witness :
    ((10 ≥ CONTENT_LIMITS.JSON_DEPTH) ∧
      ("secret" ∈ allKeys (sanitizeBody patternsNone []
        (.jsObj [("secret", .jsNum 1)]) 0))) ∧
    (sanitizeBody patternsNone [] (.jsObj [("secret", .jsNum 1)]) 10
      = .jsStr "[MAX DEPTH EXCEEDED]" ∧
     "secret" ∈ shallowKeys CONTENT_LIMITS.JSON_DEPTH
        (.jsObj [("secret", .jsNum 1)])) := by
  have hsan : sanitizeBody patternsNone [] (.jsObj [("secret", .jsNum 1)]) 0
      = .jsObj [("secret", .jsNum 1)] := by
    rw [sanitizeBody_obj, if_neg (by decide), sanitizeFields_cons,
      sanitizeFields_nil]
    simp [sanitizeEntryVal, sanitizeValue, isTypeofObject]
  have hmem : "secret" ∈ allKeys (sanitizeBody patternsNone []
      (.jsObj [("secret", .jsNum 1)]) 0) := by
    rw [hsan, allKeys, allKeysO]
    exact List.mem_cons_self _ _
  exact ⟨⟨by decide, hmem⟩,
    ⟨(claim_C6 patternsNone []).2.1 [("secret", .jsNum 1)] 10 (by decide),
     (claim_C6 patternsNone []).2.2.2 (.jsObj [("secret", .jsNum 1)]) "secret"
       hmem⟩⟩

/-! ## Formatter (src/utils/formatters.ts, GCP shape) -/

/-- `SEVERITY_LEVEL` (src/config/constants.ts): bracket lookup on the record
yields `undefined` (`none`) for unknown keys. -/
def SEVERITY_LEVEL : String → Option String
  | "trace" => some "DEBUG"
  | "debug" => some "DEBUG"
  | "info" => some "INFO"
  | "warn" => some "WARNING"
  | "error" => some "ERROR"
  | "fatal" => some "CRITICAL"
  | _ => none

/-- A JS log record: insertion-ordered fields. -/
abbrev JsRecord := List (String × JsValue)

/-- Property read `r[k]`. -/
def recGet (r : JsRecord) (k : String) : Option JsValue :=
  (List.find? (fun p => p.1 = k) r).map (fun p => p.2)

/-- Property write `r[k] = v`. -/
def recSet (r : JsRecord) (k : String) (v : JsValue) : JsRecord :=
  if r.any (fun p => p.1 = k) then
    r.map (fun p => if p.1 = k then (k, v) else p)
  else r ++ [(k, v)]

/-- `delete r[k]`. -/
def recDel (r : JsRecord) (k : String) : JsRecord :=
  r.filter (fun p => !(p.1 = k))

/-- `Object.assign(target, source)`. -/
def recAssign (target source : JsRecord) : JsRecord :=
  source.foldl (fun acc p => recSet acc p.1 p.2) target

/-- JS truthiness of a possibly-absent property. -/
def jsTruthyOpt : Option JsValue → Bool
  | some v => !jsFalsy v
  | none => false

/-- JS `a || b` on possibly-absent values. -/
def jsOr (a b : Option JsValue) : Option JsValue :=
  match a with
  | some v => if jsFalsy v then b else some v
  | none => b

mutual

/-- JS string coercion `String(v)` / template interpolation. -/
def jsToStr : JsValue → String
  | .jsStr s => s
  | .jsNull => "null"
  | .jsBool b => if b then "true" else "false"
  | .jsNum n => toString n
  | .jsArr l => jsToStrL l
  | .jsObj _ => "[object Object]"

def jsToStrL : List JsValue → String
  | [] => ""
  | [x] => jsToStr x
  | x :: xs => jsToStr x ++ "," ++ jsToStrL xs

end

/-- `FormatterOptions` fields used by the GCP branch (defaults:
`includeResource = true`, `includeTrace = true`). -/
structure FormatterOptions where
  PROJECT_ID : Option String
  includeResource : Bool
  includeTrace : Bool

/-- `getEffectiveLoggerName(logSource)`. -/
def getEffectiveLoggerName (logSource : Option JsValue) : String :=
  match logSource with
  | some (.jsStr s) =>
    if s = "exception" then "error-logger"
    else if s = "console" then "console-logger"
    else "api-logger"
  | _ => "api-logger"

/-- `getCloudLogName(projectId, loggerName)`. -/
def getCloudLogName (projectId : Option JsValue) (loggerName : String) :
    String :=
  match projectId with
  | some v =>
    if jsFalsy v then loggerName
    else "projects/" ++ jsToStr v ++ "/logs/" ++ loggerName
  | none => loggerName

/-- The GCP (non-AWS) branch of `formatJsonLog` (src/utils/formatters.ts
lines 189-252).  Absent object-literal values (`log.requestId` etc. being
`undefined`) are modelled as `jsNull` inside the labels block; no claim
reads them. -/
def formatJsonLogGcp (opts : FormatterOptions) (log : JsRecord) : JsRecord :=
  let effPid := jsOr (recGet log "PROJECT_ID")
    (jsOr (recGet log "projectId") (opts.PROJECT_ID.map .jsStr))
  let levelKey : String :=
    match recGet log "level" with
    | some v => if jsFalsy v then "info" else jsToStr v
    | none => "info"
  let f0 : JsRecord :=
    [("severity", .jsStr ((SEVERITY_LEVEL levelKey).getD "DEFAULT"))]
  let f1 :=
    if opts.includeTrace ∧ jsTruthyOpt (recGet log "traceId") then
      let tid := jsToStr ((recGet log "traceId").getD .jsNull)
      let tval :=
        if jsTruthyOpt effPid then
          "projects/" ++ jsToStr (effPid.getD .jsNull) ++ "/traces/" ++ tid
        else tid
      let fa := recSet f0 "logging.googleapis.com/trace" (.jsStr tval)
      if jsTruthyOpt (recGet log "spanId") then
        recSet fa "logging.googleapis.com/spanId"
          ((recGet log "spanId").getD .jsNull)
      else fa
    else f0
  let f2 :=
    if opts.includeResource then
      let loggerName := getEffectiveLoggerName (recGet log "logSource")
      let fb := recSet f1 "logging.googleapis.com/logName"
        (.jsStr (getCloudLogName effPid loggerName))
      recSet fb "logging.googleapis.com/labels"
        (.jsObj [("requestId", (recGet log "requestId").getD .jsNull),
                 ("service", (recGet log "service").getD .jsNull),
                 ("logName", .jsStr (getCloudLogName effPid loggerName))])
    else f1
  let f3 :=
    if jsTruthyOpt (recGet log "sourceLocation") then
      recSet f2 "logging.googleapis.com/sourceLocation"
        ((recGet log "sourceLocation").getD .jsNull)
    else f2
  let f4 :=
    if jsTruthyOpt (recGet log "operation") then
      recSet f3 "logging.googleapis.com/operation"
        ((recGet log "operation").getD .jsNull)
    else f3
  let f5 :=
    if jsTruthyOpt (recGet log "httpRequest") then
      recSet f4 "logging.googleapis.com/httpRequest"
        ((recGet log "httpRequest").getD .jsNull)
    else f4
  let f6 := recAssign f5 log
  ["pid", "hostname", "requestId", "service", "traceId", "spanId",
   "sourceLocation", "operation", "LOG_TYPE", "logType"].foldl recDel f6

theorem find?_map_setkey_ne (t : JsRecord) (k' : String) (v : JsValue)
    (k : String) (h : ¬(k' = k)) :
    (t.map (fun p => if p.1 = k' then (k', v) else p)).find?
        (fun p => p.1 = k)
      = t.find? (fun p => p.1 = k) := by
  induction t with
  | nil => rfl
  | cons p tl ih =>
    simp only [List.map_cons]
    by_cases hp : p.1 = k
    · have hne : ¬(p.1 = k') := fun hc => h (hc ▸ hp)
      rw [if_neg hne]
      rw [List.find?_cons_of_pos _ (by simp [hp]),
        List.find?_cons_of_pos _ (by simp [hp])]
    · by_cases hpk : p.1 = k'
      · rw [if_pos hpk]
        rw [List.find?_cons_of_neg _ (by simp [h]),
          List.find?_cons_of_neg _ (by simp [hp])]
        exact ih
      · rw [if_neg hpk]
        rw [List.find?_cons_of_neg _ (by simp [hp]),
          List.find?_cons_of_neg _ (by simp [hp])]
        exact ih

theorem find?_append_single_ne (t : JsRecord) (k' : String) (v : JsValue)
    (k : String) (h : ¬(k' = k)) :
    (t ++ [(k', v)]).find? (fun p => p.1 = k)
      = t.find? (fun p => p.1 = k) := by
  induction t with
  | nil =>
    simp only [List.nil_append]
    rw [List.find?_cons_of_neg _ (by simp [h])]
  | cons p tl ih =>
    simp only [List.cons_append]
    by_cases hp : p.1 = k
    · rw [List.find?_cons_of_pos _ (by simp [hp]),
        List.find?_cons_of_pos _ (by simp [hp])]
    · rw [List.find?_cons_of_neg _ (by simp [hp]),
        List.find?_cons_of_neg _ (by simp [hp])]
      exact ih

theorem recGet_recSet_ne (r : JsRecord) (k' : String) (v : JsValue)
    (k : String) (h : ¬(k' = k)) : recGet (recSet r k' v) k = recGet r k := by
  unfold recSet recGet
  split
  · rw [find?_map_setkey_ne r k' v k h]
  · rw [find?_append_single_ne r k' v k h]

theorem find?_map_setkey_self (t : JsRecord) (k : String) (v : JsValue)
    (hany : t.any (fun p => p.1 = k) = true) :
    (t.map (fun p => if p.1 = k then (k, v) else p)).find?
        (fun p => p.1 = k)
      = some (k, v) := by
  induction t with
  | nil => simp at hany
  | cons p tl ih =>
    simp only [List.map_cons]
    by_cases hp : p.1 = k
    · rw [if_pos hp, List.find?_cons_of_pos _ (by simp)]
    · rw [if_neg hp, List.find?_cons_of_neg _ (by simp [hp])]
      apply ih
      simp only [List.any_cons] at hany
      rcases Bool.or_eq_true_iff.mp hany with h1 | h2
      · exact absurd (by simpa using h1) hp
      · exact h2

theorem find?_append_single_self (t : JsRecord) (k : String) (v : JsValue)
    (hnone : ¬(t.any (fun p => p.1 = k) = true)) :
    (t ++ [(k, v)]).find? (fun p => p.1 = k) = some (k, v) := by
  induction t with
  | nil =>
    simp only [List.nil_append]
    rw [List.find?_cons_of_pos _ (by simp)]
  | cons p tl ih =>
    have hp : ¬(p.1 = k) := by
      intro hc
      exact hnone (by simp [List.any_cons, hc])
    simp only [List.cons_append]
    rw [List.find?_cons_of_neg _ (by simp [hp])]
    apply ih
    intro hc
    exact hnone (by simp [List.any_cons, hc])

theorem recGet_recSet_self (r : JsRecord) (k : String) (v : JsValue) :
    recGet (recSet r k v) k = some v := by
  unfold recSet recGet
  split
  · rename_i hany
    rw [find?_map_setkey_self r k v hany]
    rfl
  · rename_i hnone
    rw [find?_append_single_self r k v hnone]
    rfl

theorem recGet_recDel_ne (r : JsRecord) (k' k : String) (h : ¬(k' = k)) :
    recGet (recDel r k') k = recGet r k := by
  unfold recDel recGet
  induction r with
  | nil => rfl
  | cons p t ih =>
    by_cases hpk : p.1 = k'
    · have hp : ¬(p.1 = k) := fun hc => h (hpk ▸ hc ▸ rfl)
      rw [List.filter_cons_of_neg (by simp [hpk])]
      rw [List.find?_cons_of_neg _ (by simp [hp])]
      exact ih
    · rw [List.filter_cons_of_pos (by simp [hpk])]
      by_cases hp : p.1 = k
      · rw [List.find?_cons_of_pos _ (by simp [hp]),
          List.find?_cons_of_pos _ (by simp [hp])]
      · rw [List.find?_cons_of_neg _ (by simp [hp]),
          List.find?_cons_of_neg _ (by simp [hp])]
        exact ih

theorem recGet_recAssign_miss (target source : JsRecord) (k : String)
    (h : recGet source k = none) :
    recGet (recAssign target source) k = recGet target k := by
  induction source generalizing target with
  | nil => rfl
  | cons p t ih =>
    unfold recGet at h
    have hp : ¬(p.1 = k) := by
      intro hc
      rw [List.find?_cons_of_pos _ (by simp [hc])] at h
      simp at h
    rw [List.find?_cons_of_neg _ (by simp [hp])] at h
    show recGet (recAssign (recSet target p.1 p.2) t) k = recGet target k
    rw [ih (recSet target p.1 p.2) h, recGet_recSet_ne _ _ _ _ hp]

theorem recGet_foldl_del (dels : List String) (r : JsRecord) (k : String)
    (h : ¬(k ∈ dels)) : recGet (dels.foldl recDel r) k = recGet r k := by
  induction dels generalizing r with
  | nil => rfl
  | cons d t ih =>
    have hd : ¬(d = k) := fun hc => h (hc ▸ List.mem_cons_self d t)
    show recGet (t.foldl recDel (recDel r d)) k = recGet r k
    rw [ih (recDel r d) (fun hc => h (List.mem_cons_of_mem d hc)),
      recGet_recDel_ne _ _ _ hd]

theorem isEmpty_false_of_ne {l : String} (hne : ¬(l = "")) :
    l.isEmpty = false := by
  cases hb : l.isEmpty
  · rfl
  · exact absurd ((String.isEmpty_iff l).mp hb) hne

theorem severity_unknown (l : String)
    (h : ¬(l ∈ ["trace", "debug", "info", "warn", "error", "fatal"])) :
    SEVERITY_LEVEL l = none := by
  unfold SEVERITY_LEVEL
  split <;> simp_all

theorem recGet_ite (c : Prop) [Decidable c] (a b : JsRecord) (k : String) :
    recGet (if c then a else b) k = if c then recGet a k else recGet b k := by
  split <;> rfl

theorem formatGcp_severity (opts : FormatterOptions) (log : JsRecord)
    (l : String) (hsev : recGet log "severity" = none)
    (hlev : recGet log "level" = some (.jsStr l)) (hne : ¬(l = "")) :
    recGet (formatJsonLogGcp opts log) "severity"
      = some (.jsStr ((SEVERITY_LEVEL l).getD "DEFAULT")) := by
  have e1 := fun r v => recGet_recSet_ne r "logging.googleapis.com/trace" v
    "severity" (by decide)
  have e2 := fun r v => recGet_recSet_ne r "logging.googleapis.com/spanId" v
    "severity" (by decide)
  have e3 := fun r v => recGet_recSet_ne r "logging.googleapis.com/logName" v
    "severity" (by decide)
  have e4 := fun r v => recGet_recSet_ne r "logging.googleapis.com/labels" v
    "severity" (by decide)
  have e5 := fun r v => recGet_recSet_ne r
    "logging.googleapis.com/sourceLocation" v "severity" (by decide)
  have e6 := fun r v => recGet_recSet_ne r "logging.googleapis.com/operation" v
    "severity" (by decide)
  have e7 := fun r v => recGet_recSet_ne r
    "logging.googleapis.com/httpRequest" v "severity" (by decide)
  simp only [formatJsonLogGcp]
  rw [recGet_foldl_del _ _ _ (by decide)]
  rw [recGet_recAssign_miss _ _ _ hsev]
  rw [hlev]
  dsimp only
  simp only [recGet_ite, e1, e2, e3, e4, e5, e6, e7, ite_self]
  have hfal : jsFalsy (.jsStr l) = false := by
    simp [jsFalsy, isEmpty_false_of_ne hne]
  rw [hfal]
  simp only [Bool.false_eq_true, if_false]
  rfl

theorem formatGcp_trace (opts : FormatterOptions) (log : JsRecord)
    (tid pid : String) (hinc : opts.includeTrace = true)
    (hmiss : recGet log "logging.googleapis.com/trace" = none)
    (hpid0 : recGet log "PROJECT_ID" = none)
    (hpid : recGet log "projectId" = some (.jsStr pid)) (hpne : ¬(pid = ""))
    (htid : recGet log "traceId" = some (.jsStr tid)) (htne : ¬(tid = "")) :
    recGet (formatJsonLogGcp opts log) "logging.googleapis.com/trace"
      = some (.jsStr ("projects/" ++ pid ++ "/traces/" ++ tid)) := by
  have e2 := fun r v => recGet_recSet_ne r "logging.googleapis.com/spanId" v
    "logging.googleapis.com/trace" (by decide)
  have e3 := fun r v => recGet_recSet_ne r "logging.googleapis.com/logName" v
    "logging.googleapis.com/trace" (by decide)
  have e4 := fun r v => recGet_recSet_ne r "logging.googleapis.com/labels" v
    "logging.googleapis.com/trace" (by decide)
  have e5 := fun r v => recGet_recSet_ne r
    "logging.googleapis.com/sourceLocation" v
    "logging.googleapis.com/trace" (by decide)
  have e6 := fun r v => recGet_recSet_ne r "logging.googleapis.com/operation" v
    "logging.googleapis.com/trace" (by decide)
  have e7 := fun r v => recGet_recSet_ne r
    "logging.googleapis.com/httpRequest" v
    "logging.googleapis.com/trace" (by decide)
  have hfp : jsFalsy (.jsStr pid) = false := by
    simp [jsFalsy, isEmpty_false_of_ne hpne]
  have hft : jsFalsy (.jsStr tid) = false := by
    simp [jsFalsy, isEmpty_false_of_ne htne]
  simp only [formatJsonLogGcp]
  rw [recGet_foldl_del _ _ _ (by decide)]
  rw [recGet_recAssign_miss _ _ _ hmiss]
  rw [hpid0, hpid, htid, hinc]
  simp only [jsOr, jsTruthyOpt, hfp, hft, Bool.not_false, recGet_ite,
    e2, e3, e4, e5, e6, e7, ite_self]
  simp only [and_self, if_true]
  rw [recGet_recSet_self]
  simp only [Bool.false_eq_true, if_false, hfp, Bool.not_false,
    eq_self_iff_true, if_true]
  rfl

/-- The scenario record of C8. -/
def scenarioLog : JsRecord :=
  [("level", .jsStr "error"), ("projectId", .jsStr "proj1"),
   ("traceId", .jsStr "abc123")]

/-- `FormatterOptions` defaults (`includeResource`/`includeTrace` true, no
configured project id). -/
def defaultFmtOptions : FormatterOptions :=
  { PROJECT_ID := none, includeResource := true, includeTrace := true }

/-- C8: formatting `{level: "error", projectId: "proj1", traceId: "abc123"}`
in GCP mode yields `severity = "ERROR"` and the vendor-prefixed trace field
`projects/proj1/traces/abc123`; in general severity is the six-level map
(trace/debug→DEBUG, info→INFO, warn→WARNING, error→ERROR, fatal→CRITICAL,
anything else→DEFAULT) of the record's level, and the trace field is
`projects/{pid}/traces/{tid}` whenever a project id is configured and a
trace id is present. -/
theorem claim_C8 :
    (recGet (formatJsonLogGcp defaultFmtOptions scenarioLog) "severity"
        = some (.jsStr "ERROR") ∧
     recGet (formatJsonLogGcp defaultFmtOptions scenarioLog)
        "logging.googleapis.com/trace"
        = some (.jsStr "projects/proj1/traces/abc123")) ∧
    (∀ (opts : FormatterOptions) (log : JsRecord) (l : String),
      recGet log "severity" = none → recGet log "level" = some (.jsStr l) →
      ¬(l = "") →
      recGet (formatJsonLogGcp opts log) "severity"
        = some (.jsStr ((SEVERITY_LEVEL l).getD "DEFAULT"))) ∧
    (SEVERITY_LEVEL "trace" = some "DEBUG" ∧
     SEVERITY_LEVEL "debug" = some "DEBUG" ∧
     SEVERITY_LEVEL "info" = some "INFO" ∧
     SEVERITY_LEVEL "warn" = some "WARNING" ∧
     SEVERITY_LEVEL "error" = some "ERROR" ∧
     SEVERITY_LEVEL "fatal" = some "CRITICAL" ∧
     (∀ l : String, ¬(l ∈ ["trace", "debug", "info", "warn", "error", "fatal"]) →
       SEVERITY_LEVEL l = none)) ∧
    (∀ (opts : FormatterOptions) (log : JsRecord) (tid pid : String),
      opts.includeTrace = true →
      recGet log "logging.googleapis.com/trace" = none →
      recGet log "PROJECT_ID" = none →
      recGet log "projectId" = some (.jsStr pid) → ¬(pid = "") →
      recGet log "traceId" = some (.jsStr tid) → ¬(tid = "") →
      recGet (formatJsonLogGcp opts log) "logging.googleapis.com/trace"
        = some (.jsStr ("projects/" ++ pid ++ "/traces/" ++ tid))) := by
  refine ⟨⟨rfl, rfl⟩, ?_, ⟨rfl, rfl, rfl, rfl, rfl, rfl, severity_unknown⟩, ?_⟩
  · intro opts log l h1 h2 h3
    exact formatGcp_severity opts log l h1 h2 h3
  · intro opts log tid pid h1 h2 h3 h4 h5 h6 h7
    exact formatGcp_trace opts log tid pid h1 h2 h3 h4 h5 h6 h7

/-- Witness for C8: the general severity and trace clauses instantiated on
the scenario record itself. -/
theorem claim_C8_witness :
    ((recGet scenarioLog "severity" = none ∧
      recGet scenarioLog "level" = some (.jsStr "error") ∧
      ¬(("error" : String) = "") ∧
      defaultFmtOptions.includeTrace = true ∧
      recGet scenarioLog "logging.googleapis.com/trace" = none ∧
      recGet scenarioLog "PROJECT_ID" = none ∧
      recGet scenarioLog "projectId" = some (.jsStr "proj1") ∧
      ¬(("proj1" : String) = "") ∧
      recGet scenarioLog "traceId" = some (.jsStr "abc123") ∧
      ¬(("abc123" : String) = "")) ∧
     (recGet (formatJsonLogGcp defaultFmtOptions scenarioLog) "severity"
        = some (.jsStr ((SEVERITY_LEVEL "error").getD "DEFAULT")) ∧
      recGet (formatJsonLogGcp defaultFmtOptions scenarioLog)
        "logging.googleapis.com/trace"
        = some (.jsStr ("projects/" ++ "proj1" ++ "/traces/" ++ "abc123")))) :=
  ⟨⟨rfl, rfl, by decide, rfl, rfl, rfl, rfl, by decide, rfl, by decide⟩,
   ⟨claim_C8.2.1 defaultFmtOptions scenarioLog "error" rfl rfl (by decide),
    claim_C8.2.2.2 defaultFmtOptions scenarioLog "abc123" "proj1" rfl rfl rfl
      rfl (by decide) rfl (by decide)⟩⟩

/-- Witness for C2 (amended) at the example `x-amzn-trace-id` header. -/
theorem claim_C2_amended_witness :
    (TraceContext.parseTraceParent amznHeaderA 1700000000 entropyA).spanId
      = entropyA.span16 ∧
    (TraceContext.parseCloudTrace amznHeaderA 1700000000 entropyA).spanId
      = entropyA.span16 ∧
    (let st := (splitOnChar ';' (stripQuotes amznHeaderA)).foldl
        TraceContext.amznScan ([], [], ['1'])
     if amznHeaderA ≠ [] ∧ st.1 ≠ [] ∧ st.2.1 ≠ [] then
       (TraceContext.parseXAmznTraceId amznHeaderA 1700000000 entropyA).spanId =
         TraceContext.normalizeAmznSpan st.2.1
     else
       (TraceContext.parseXAmznTraceId amznHeaderA 1700000000
         entropyA).spanId = entropyA.span16) :=
  claim_C2_amended amznHeaderA 1700000000 entropyA

/-- Witness for C9 (amended) at the AWS-mode context. -/
theorem claim_C9_amended_witness :
    ((awsCtxA.addTraceHeaders [] 1700000000).map Prod.fst =
      match awsCtxA.traceContext with
      | none => ["x-request-id".toList]
      | some tc =>
        "traceparent".toList ::
          ((if tc.toTraceState ≠ [] then ["tracestate".toList] else []) ++
           [(if awsCtxA.logType = LogType.aws then "x-amzn-trace-id".toList
             else "x-cloud-trace-context".toList),
            "x-request-id".toList])) ∧
    RequestContext.getHeader (awsCtxA.addTraceHeaders [] 1700000000)
      "x-request-id".toList = awsCtxA.requestId :=
  claim_C9_amended awsCtxA 1700000000
